import Mathlib

/-!
Verification of the Low-latency stream kit (tspi_kit) against its
natural-language specification.  Each Python module relevant to the claims
is shallowly embedded as executable Lean definitions; machine integers are
Nat/Int with explicit two's-complement conversion, Python floats that only
carry exact decimal arithmetic are modelled as rationals, raised exceptions
become Except, and stateful objects become explicit state-passing functions.
-/

set_option maxRecDepth 20000

namespace TspiKit

/-! ## Shared helpers for Python string primitives -/

/-- Characters stripped by Python str.strip() for ASCII input. -/
def pyIsSpace (c : Char) : Bool :=
  c = ' ' || c = '\t' || c = '\n' || c = '\u000b' || c = '\u000c' || c = '\r'

/-- Python str.strip(): drop leading and trailing whitespace. -/
def pyStripList (l : List Char) : List Char :=
  ((l.dropWhile pyIsSpace).reverse.dropWhile pyIsSpace).reverse

def pyStrip (s : String) : String :=
  String.mk (pyStripList s.data)

/-- ASCII lower-casing of one character, as Python str.lower() acts on A-Z. -/
def asciiLowerChar (c : Char) : Char :=
  if 'A' ≤ c ∧ c ≤ 'Z' then Char.ofNat (c.toNat + 32) else c

def asciiLower (s : String) : String :=
  String.mk (s.data.map asciiLowerChar)

/-! ## Datagram codec (src/tspi_kit/datagrams.py)

A datagram is a list of byte values.  The header format of
parse_tspi_datagram is struct ">BBHHIBH" (13 bytes, big endian), the
geocentric payload ">iiihhhhhh" and the spherical payload ">iIIhhhhhh"
(24 bytes each).  Scaled float fields are modelled as rationals, which is
exact for the decimal divisions by 100, 10000 and 1000000 performed by the
source. -/

/-- Big-endian 16-bit value from two bytes. -/
def be16 (hi lo : Nat) : Nat := hi * 256 + lo

/-- Big-endian 32-bit value from four bytes. -/
def be32 (b0 b1 b2 b3 : Nat) : Nat := ((b0 * 256 + b1) * 256 + b2) * 256 + b3

/-- Two's-complement signed reading of a 16-bit value (struct code h). -/
def toSigned16 (v : Nat) : Int :=
  if v < 2 ^ 15 then (v : Int) else (v : Int) - 2 ^ 16

/-- Two's-complement signed reading of a 32-bit value (struct code i). -/
def toSigned32 (v : Nat) : Int :=
  if v < 2 ^ 31 then (v : Int) else (v : Int) - 2 ^ 32

/-- Canonical representation of a TSPI datagram (class ParsedTSPI). -/
structure ParsedTSPI where
  type : String
  sensor_id : Nat
  day : Nat
  time_s : ℚ
  time_ticks : Nat
  status : Nat
  status_flags : List (String × Bool)
  payload : List (String × ℚ)
  version : Nat
  deriving Repr, DecidableEq

/-- Method ParsedTSPI.deduplication_id. -/
def ParsedTSPI.deduplication_id (p : ParsedTSPI) : String :=
  toString p.sensor_id ++ ":" ++ toString p.day ++ ":" ++ toString p.time_ticks

/-- Function _status_bits: the nine named booleans of status | (flags << 8). -/
def statusBits (status flags : Nat) : List (String × Bool) :=
  let combined := status ||| (flags <<< 8)
  [ ("position_x_valid", combined.testBit 0),
    ("position_y_valid", combined.testBit 1),
    ("position_z_valid", combined.testBit 2),
    ("velocity_x_valid", combined.testBit 3),
    ("velocity_y_valid", combined.testBit 4),
    ("velocity_z_valid", combined.testBit 5),
    ("acceleration_x_valid", combined.testBit 6),
    ("acceleration_y_valid", combined.testBit 7),
    ("acceleration_z_valid", combined.testBit 8) ]

/-- Byte at index i of a payload list (struct.unpack reads of the slice). -/
def byteAt (l : List Nat) (i : Nat) : Nat := (l.get? i).getD 0

/-- Signed 32-bit big-endian field starting at byte offset i. -/
def s32At (l : List Nat) (i : Nat) : Int :=
  toSigned32 (be32 (byteAt l i) (byteAt l (i + 1)) (byteAt l (i + 2)) (byteAt l (i + 3)))

/-- Unsigned 32-bit big-endian field starting at byte offset i. -/
def u32At (l : List Nat) (i : Nat) : Nat :=
  be32 (byteAt l i) (byteAt l (i + 1)) (byteAt l (i + 2)) (byteAt l (i + 3))

/-- Signed 16-bit big-endian field starting at byte offset i. -/
def s16At (l : List Nat) (i : Nat) : Int :=
  toSigned16 (be16 (byteAt l i) (byteAt l (i + 1)))

/-- Function _parse_geocentric: three i32 positions and six i16 rates, /100. -/
def parseGeocentric (payload : List Nat) : Except String (List (String × ℚ)) :=
  if payload.length ≠ 24 then .error "Invalid geocentric payload length" else
  .ok [ ("x_m", (s32At payload 0 : ℚ) / 100),
        ("y_m", (s32At payload 4 : ℚ) / 100),
        ("z_m", (s32At payload 8 : ℚ) / 100),
        ("vx_mps", (s16At payload 12 : ℚ) / 100),
        ("vy_mps", (s16At payload 14 : ℚ) / 100),
        ("vz_mps", (s16At payload 16 : ℚ) / 100),
        ("ax_mps2", (s16At payload 18 : ℚ) / 100),
        ("ay_mps2", (s16At payload 20 : ℚ) / 100),
        ("az_mps2", (s16At payload 22 : ℚ) / 100) ]

/-- Function _parse_spherical: i32 range, u32 azimuth and elevation, six i16. -/
def parseSpherical (payload : List Nat) : Except String (List (String × ℚ)) :=
  if payload.length ≠ 24 then .error "Invalid spherical payload length" else
  .ok [ ("range_m", (s32At payload 0 : ℚ) / 100),
        ("azimuth_deg", (u32At payload 4 : ℚ) / 1000000),
        ("elevation_deg", (u32At payload 8 : ℚ) / 1000000),
        ("azimuth_rate_dps", (s16At payload 12 : ℚ) / 100),
        ("elevation_rate_dps", (s16At payload 14 : ℚ) / 100),
        ("range_rate_mps", (s16At payload 16 : ℚ) / 100),
        ("azimuth_accel_dps2", (s16At payload 18 : ℚ) / 100),
        ("elevation_accel_dps2", (s16At payload 20 : ℚ) / 100),
        ("range_accel_mps2", (s16At payload 22 : ℚ) / 100) ]

/-- Function parse_tspi_datagram.  Raised ValueError becomes Except.error.
The big-endian header fields live at the fixed offsets of struct format
BBHHIBH; the payload is the remaining 24-byte slice. -/
def parse_tspi_datagram (datagram : List Nat) : Except String ParsedTSPI :=
  if datagram.length ≠ 37 then
    .error "TSPI datagram must be exactly 37 bytes"
  else
    let b0 := byteAt datagram 0
    let version := byteAt datagram 1
    let sensor_id := be16 (byteAt datagram 2) (byteAt datagram 3)
    let day := be16 (byteAt datagram 4) (byteAt datagram 5)
    let time_ticks :=
      be32 (byteAt datagram 6) (byteAt datagram 7) (byteAt datagram 8) (byteAt datagram 9)
    let status := byteAt datagram 10
    let flags := be16 (byteAt datagram 11) (byteAt datagram 12)
    let payload := datagram.drop 13
    if b0 ≠ 0xC1 ∧ b0 ≠ 0xC2 then .error "Unsupported message type byte"
    else if version ≠ 4 then .error "Unsupported datagram version"
    else if b0 = 0xC1 then
      (parseGeocentric payload).map fun parsed =>
        { type := "geocentric", sensor_id := sensor_id, day := day,
          time_s := (time_ticks : ℚ) / 10000, time_ticks := time_ticks,
          status := status, status_flags := statusBits status flags,
          payload := parsed, version := version }
    else
      (parseSpherical payload).map fun parsed =>
        { type := "spherical", sensor_id := sensor_id, day := day,
          time_s := (time_ticks : ℚ) / 10000, time_ticks := time_ticks,
          status := status, status_flags := statusBits status flags,
          payload := parsed, version := version }

/-! ## JetStream subject helpers (src/tspi_kit/jetstream.py) -/

/-- Function build_subject.  The Python default argument None and the
falsy-string fallback of the or-expression are modelled explicitly. -/
def build_subject (message : ParsedTSPI) (stream_pfx : Option String := none) : String :=
  let pfx := match stream_pfx with
    | none => "tspi"
    | some s => if s = "" then "tspi" else s
  pfx ++ "." ++ message.type ++ "." ++ toString message.sensor_id

/-- Function message_headers. -/
def message_headers (message : ParsedTSPI) : List (String × String) :=
  [("Nats-Msg-Id", message.deduplication_id)]

/-! ## In-memory JetStream simulation (src/tspi_kit/jetstream_sim.py)

Headers are association lists with Python dict lookup semantics; the
deduplication dict of InMemoryJetStream is kept as an association list whose
keys are the Nats-Msg-Id values already stored. -/

/-- Python dict lookup on an association list (insertion ordered, unique keys
by construction of the operations below). -/
def dictGet (l : List (String × String)) (k : String) : Option String :=
  (l.find? fun p => p.1 = k).map Prod.snd

/-- Python str.split(sep) for a one-character separator, on char lists.
Empty input yields one empty field, exactly as in Python. -/
def pySplitChar (sep : Char) : List Char → List (List Char)
  | [] => [[]]
  | c :: rest =>
    if c = sep then [] :: pySplitChar sep rest
    else
      match pySplitChar sep rest with
      | [] => [[c]]
      | t :: ts => (c :: t) :: ts

/-- Joining with a separator character, the inverse of pySplitChar. -/
def joinChar (sep : Char) : List (List Char) → List Char
  | [] => []
  | [t] => t
  | t :: ts => t ++ sep :: joinChar sep ts

/-- Subject split on dots, returning tokens as strings. -/
def splitSubject (s : String) : List String :=
  (pySplitChar '.' s.data).map String.mk

/-- Function _match_token. -/
def matchToken (subject_token pattern_token : String) : Bool :=
  if pattern_token = ">" then true
  else if pattern_token = "*" then true
  else subject_token = pattern_token

/-- The indexed loop of _match_subject, consuming pattern tokens in order.
A pattern token > returns true before the bounds check, exactly as in the
source; when the pattern is exhausted the final length comparison of the
source reduces to the subject being exhausted as well. -/
def matchTokens : List String → List String → Bool
  | [], [] => true
  | [], _ :: _ => false
  | p :: ps, subj =>
    if p = ">" then true
    else
      match subj with
      | [] => false
      | s :: ss => if matchToken s p then matchTokens ps ss else false

/-- Function _match_subject. -/
def matchSubject (subject pattern : String) : Bool :=
  if pattern = ">" then true
  else matchTokens (splitSubject pattern) (splitSubject subject)

/-- Class JetStreamMessage. -/
structure JetStreamMessage where
  subject : String
  data : List Nat
  headers : List (String × String)
  timestamp : ℚ
  deriving Repr, DecidableEq

/-- State of class InMemoryJetStream. -/
structure InMemoryJetStream where
  messages : List JetStreamMessage
  dedup : List (String × JetStreamMessage)
  deriving Repr, DecidableEq

/-- Constructor of InMemoryJetStream. -/
def InMemoryJetStream.empty : InMemoryJetStream :=
  { messages := [], dedup := [] }

/-- Arguments of a publish call; None defaults are explicit options. -/
structure PublishRequest where
  subject : String
  payload : List Nat
  headers : Option (List (String × String)) := none
  timestamp : Option ℚ := none
  deriving Repr, DecidableEq

/-- Headers actually attached to the stored message (None becomes {}). -/
def PublishRequest.effHeaders (r : PublishRequest) : List (String × String) :=
  r.headers.getD []

/-- The Nats-Msg-Id header value of a publish request, if present. -/
def PublishRequest.msgId (r : PublishRequest) : Option String :=
  dictGet r.effHeaders "Nats-Msg-Id"

/-- The JetStreamMessage a request stores when it is not suppressed. -/
def PublishRequest.toMessage (r : PublishRequest) : JetStreamMessage :=
  { subject := r.subject, data := r.payload, headers := r.effHeaders,
    timestamp := r.timestamp.getD 0 }

/-- Membership test of the deduplication dict. -/
def dedupHas (js : InMemoryJetStream) (k : String) : Bool :=
  (js.dedup.find? fun p => p.1 = k).isSome

/-- Method InMemoryJetStream.publish, returning the new state and the
boolean result of the call. -/
def InMemoryJetStream.publish (js : InMemoryJetStream) (r : PublishRequest) :
    InMemoryJetStream × Bool :=
  match r.msgId with
  | some m =>
    if dedupHas js m then (js, false)
    else
      ({ messages := js.messages ++ [r.toMessage],
         dedup := js.dedup ++ [(m, r.toMessage)] }, true)
  | none =>
    ({ messages := js.messages ++ [r.toMessage], dedup := js.dedup }, true)

/-- Folding a sequence of publish calls over the broker state. -/
def runPublishes (reqs : List PublishRequest) (js : InMemoryJetStream) :
    InMemoryJetStream :=
  reqs.foldl (fun s r => (s.publish r).1) js

/-- Nats-Msg-Id values carried by a sequence of publish requests. -/
def carriedIds (reqs : List PublishRequest) : List String :=
  reqs.filterMap PublishRequest.msgId

/-- Number of stored messages whose headers carry a given Nats-Msg-Id. -/
def countWithId (js : InMemoryJetStream) (x : String) : Nat :=
  (js.messages.filter fun m => dictGet m.headers "Nats-Msg-Id" = some x).length

/-! ## Channels and replay control plane (src/tspi_kit/channels.py)

Datetimes are modelled as UTC wall-clock structures; the tz normalisation of
_ensure_utc is therefore implicit.  datetime.fromisoformat is a Python
standard-library routine outside this repository, so the string branch of
_parse_timestamp is abstracted as a parameter returning the parsed UTC
datetime, or none when fromisoformat raises.  datetime.fromtimestamp is
modelled concretely by the proleptic-Gregorian civil-from-days conversion. -/

/-- A timezone-aware UTC datetime, truncated to whole seconds as both
formatting helpers of the source do. -/
structure DT where
  year : Int
  month : Nat
  day : Nat
  hour : Nat
  minute : Nat
  second : Nat
  deriving Repr, DecidableEq

/-- Zero-padded decimal rendering used by isoformat and strftime. -/
def padNat (width n : Nat) : String :=
  let s := toString n
  String.mk (List.replicate (width - s.length) '0') ++ s

/-- Rendering of a year, zero padded to four digits for the CE range. -/
def padYear (y : Int) : String :=
  if 0 ≤ y then padNat 4 y.toNat else toString y

/-- Function _isoformat: isoformat(timespec=seconds) with +00:00 replaced
by Z. -/
def isoZ (d : DT) : String :=
  padYear d.year ++ "-" ++ padNat 2 d.month ++ "-" ++ padNat 2 d.day ++ "T" ++
    padNat 2 d.hour ++ ":" ++ padNat 2 d.minute ++ ":" ++ padNat 2 d.second ++ "Z"

/-- Function _channel_suffix: strftime of YmdTHMSZ. -/
def channelSuffix (d : DT) : String :=
  padYear d.year ++ padNat 2 d.month ++ padNat 2 d.day ++ "T" ++
    padNat 2 d.hour ++ padNat 2 d.minute ++ padNat 2 d.second ++ "Z"

/-- Proleptic Gregorian civil date from a count of days since 1970-01-01. -/
def civilFromDays (z0 : Int) : Int × Nat × Nat :=
  let z := z0 + 719468
  let era := Int.fdiv z 146097
  let doe := (z - era * 146097).toNat
  let yoe := (doe - doe / 1460 + doe / 36524 - doe / 146096) / 365
  let doy := doe - (365 * yoe + yoe / 4 - yoe / 100)
  let mp := (5 * doy + 2) / 153
  let dy := doy - (153 * mp + 2) / 5 + 1
  let mo := if mp < 10 then mp + 3 else mp - 9
  let yr : Int := (yoe : Int) + era * 400
  (if mo ≤ 2 then yr + 1 else yr, mo, dy)

/-- datetime.fromtimestamp(t, tz=utc), truncated to whole seconds exactly as
the two formatting helpers of the source then do. -/
def epochToDT (t : ℚ) : DT :=
  let n : Int := ⌊t⌋
  let days := Int.fdiv n 86400
  let sod := (n - days * 86400).toNat
  let c := civilFromDays days
  { year := c.1, month := c.2.1, day := c.2.2,
    hour := sod / 3600, minute := sod % 3600 / 60, second := sod % 60 }

/-- ASCII alphanumeric class A-Za-z0-9 of the slug regular expression. -/
def isAlnumAscii (c : Char) : Bool :=
  ('A' ≤ c ∧ c ≤ 'Z') || ('a' ≤ c ∧ c ≤ 'z') || ('0' ≤ c ∧ c ≤ '9')

/-- dropWhile never lengthens a list; used for termination of subNonAlnum. -/
theorem dropWhileLenLe {α : Type} (p : α → Bool) (l : List α) :
    (l.dropWhile p).length ≤ l.length := by
  induction l with
  | nil => simp [List.dropWhile]
  | cons a t ih =>
    by_cases h : p a
    · simp [List.dropWhile, h]
      omega
    · simp [List.dropWhile, h]

/-- re.sub of one-or-more non-alphanumerics by a single dash. -/
def subNonAlnum : List Char → List Char
  | [] => []
  | c :: rest =>
    if isAlnumAscii c then c :: subNonAlnum rest
    else '-' :: subNonAlnum (rest.dropWhile fun x => !isAlnumAscii x)
termination_by l => l.length
decreasing_by
  · simp
  · have h := dropWhileLenLe (fun x => !isAlnumAscii x) rest
    simp only [List.length_cons]
    omega

/-- Python str.strip of a dash character from both ends. -/
def stripDashes (l : List Char) : List Char :=
  ((l.dropWhile fun c => c = '-').reverse.dropWhile fun c => c = '-').reverse

/-- Function _slugify_identifier; the raised ValueError becomes an error. -/
def slugify_identifier (identifier : String) : Except String String :=
  let slug := String.mk (stripDashes (subNonAlnum (pyStripList identifier.data)))
  if slug = "" then .error "Replay identifier must contain alphanumeric characters"
  else .ok (asciiLower slug)

/-- Modelled from the spec wording, for comparison with the source slug:
the maximal alphanumeric runs of a label, in order. -/
def alnumRuns : List Char → List (List Char)
  | [] => []
  | c :: rest =>
    if isAlnumAscii c then
      (c :: rest.takeWhile isAlnumAscii) :: alnumRuns (rest.dropWhile isAlnumAscii)
    else alnumRuns rest
termination_by l => l.length
decreasing_by
  · have h := dropWhileLenLe isAlnumAscii rest
    simp only [List.length_cons]
    omega
  · simp

/-- Modelled from the spec wording: the lowercased slug of the label's
alphanumeric runs joined by single dashes. -/
def slugSpec (s : String) : String :=
  String.mk (joinChar '-' ((alnumRuns s.data).map (List.map asciiLowerChar)))

/-- Enum ChannelKind. -/
inductive ChannelKind where
  | livestream
  | group_replay
  | private_replay
  deriving Repr, DecidableEq

/-- Class ChannelDescriptor. -/
structure ChannelDescriptor where
  channel_id : String
  subject : String
  display_name : String
  kind : ChannelKind
  stream : String := "TSPI"
  identifier : Option String := none
  deriving Repr, DecidableEq

/-- Function live_channel. -/
def live_channel : ChannelDescriptor :=
  { channel_id := "livestream", subject := "tspi.channel.livestream",
    display_name := "livestream", kind := ChannelKind.livestream }

/-- Argument to group_replay_channel: a datetime, a numeric epoch, or a
free-form string. -/
inductive ReplayIdentifier where
  | dt (d : DT)
  | epoch (t : ℚ)
  | label (s : String)
  deriving Repr, DecidableEq

/-- The datetime obtained for the datetime and epoch branches. -/
def ReplayIdentifier.resolveDT : ReplayIdentifier → Option DT
  | .dt d => some d
  | .epoch t => some (epochToDT t)
  | .label _ => none

/-- Display-name defaulting of group_replay_channel: a provided name wins
only when it is non-empty after strip. -/
def chooseDisplay (display_name : Option String) (default_display : String) : String :=
  match display_name with
  | some s => if pyStrip s = "" then default_display else pyStrip s
  | none => default_display

/-- Function group_replay_channel.  fromIso abstracts the string branch of
_parse_timestamp (the stdlib fromisoformat together with the Z-suffix
preprocessing); raised ValueError becomes Except.error. -/
def group_replay_channel (fromIso : String → Option DT) (identifier : ReplayIdentifier)
    (stream : String := "TSPI") (display_name : Option String := none) :
    Except String ChannelDescriptor :=
  let build : DT → ChannelDescriptor := fun d =>
    let resolved := isoZ d
    let suffix := channelSuffix d
    { channel_id := "replay." ++ suffix,
      subject := "tspi.channel.replay." ++ suffix,
      display_name := chooseDisplay display_name ("replay " ++ resolved),
      kind := ChannelKind.group_replay, stream := stream,
      identifier := some resolved }
  match identifier with
  | .dt d => .ok (build d)
  | .epoch t => .ok (build (epochToDT t))
  | .label raw =>
    let text := pyStrip raw
    if text = "" then .error "Replay identifier must be a non-empty string"
    else
      match fromIso text with
      | some d => .ok (build d)
      | none =>
        (slugify_identifier text).map fun slug =>
          { channel_id := "replay." ++ slug,
            subject := "tspi.channel.replay." ++ slug,
            display_name := chooseDisplay display_name text,
            kind := ChannelKind.group_replay, stream := stream,
            identifier := some text }

/-! ### Channel directory and manager -/

/-- Python dict item assignment: replace in place when the key exists,
append otherwise. -/
def dictUpd {α : Type} (l : List (String × α)) (k : String) (v : α) :
    List (String × α) :=
  if l.any fun p => p.1 = k then
    l.map fun p => if p.1 = k then (k, v) else p
  else l ++ [(k, v)]

/-- Lookup in an insertion-ordered dict. -/
def dictFind {α : Type} (l : List (String × α)) (k : String) : Option α :=
  (l.find? fun p => p.1 = k).map Prod.snd

/-- The channel registry of class ChannelDirectory. -/
abbrev ChannelDirectory := List (String × ChannelDescriptor)

/-- Constructor of ChannelDirectory. -/
def ChannelDirectory.init : ChannelDirectory :=
  [("livestream", live_channel)]

/-- Method ChannelDirectory.upsert. -/
def ChannelDirectory.upsert (d : ChannelDirectory) (c : ChannelDescriptor)
    (advertise : Bool := true) : ChannelDirectory :=
  if c.kind = ChannelKind.private_replay ∧ ¬advertise then d
  else dictUpd d c.channel_id c

/-- Method ChannelDirectory.remove. -/
def ChannelDirectory.remove (d : ChannelDirectory) (channel_id : String) :
    ChannelDirectory :=
  if channel_id = "livestream" then d
  else d.filter fun p => p.1 ≠ channel_id

/-- The _SORT_ORDER table with its default of 99. -/
def sortOrderOf (k : ChannelKind) : Nat :=
  match k with
  | ChannelKind.group_replay => 0
  | ChannelKind.private_replay => 1
  | _ => 99

/-- The sort key comparison of list_channels: (sort order, channel_id). -/
def channelBefore (a b : ChannelDescriptor) : Bool :=
  sortOrderOf a.kind < sortOrderOf b.kind ||
    (sortOrderOf a.kind = sortOrderOf b.kind ∧ a.channel_id < b.channel_id)

/-- Insertion of one element into an already sorted list, after any element
it does not strictly precede: this reproduces the stability of list.sort. -/
def insOrdered {α : Type} (lt : α → α → Bool) (x : α) : List α → List α
  | [] => [x]
  | y :: ys => if lt x y then x :: y :: ys else y :: insOrdered lt x ys

/-- Stable sort by repeated ordered insertion. -/
def pySort {α : Type} (lt : α → α → Bool) (xs : List α) : List α :=
  xs.foldl (fun acc x => insOrdered lt x acc) []

/-- Method ChannelDirectory.list_channels; none models the KeyError raised
when the livestream key is absent (it never is in reachable states). -/
def ChannelDirectory.list_channels (d : ChannelDirectory)
    (include_private : Bool := true) : Option (List ChannelDescriptor) :=
  match dictFind d "livestream" with
  | none => none
  | some live =>
    let others := (d.filter fun p => p.1 ≠ "livestream").map Prod.snd
    let sorted := pySort channelBefore others
    some (live :: sorted.filter fun c =>
      ¬(c.kind = ChannelKind.private_replay ∧ ¬include_private))

/-- State of class ChannelManager. -/
structure ChannelManager where
  directory : ChannelDirectory
  active_group : Option String
  deriving DecidableEq

/-- Constructor of ChannelManager with a fresh directory. -/
def ChannelManager.init : ChannelManager :=
  { directory := ChannelDirectory.init, active_group := none }

/-- Method ChannelManager.start_group_replay; a raised error from
group_replay_channel leaves the state unchanged. -/
def ChannelManager.start_group_replay (fromIso : String → Option DT)
    (m : ChannelManager) (identifier : ReplayIdentifier)
    (stream : String := "TSPI") (display_name : Option String := none) :
    ChannelManager :=
  match group_replay_channel fromIso identifier stream display_name with
  | .error _ => m
  | .ok channel =>
    { directory := m.directory.upsert channel,
      active_group := some channel.channel_id }

/-- Method ChannelManager.stop_group_replay. -/
def ChannelManager.stop_group_replay (m : ChannelManager)
    (channel_id : Option String := none) : ChannelManager :=
  let resolved := match channel_id with
    | none => m.active_group
    | some c => some c
  match resolved with
  | none => m
  | some cid =>
    if cid = "" then m
    else
      match dictFind m.directory cid with
      | none => m
      | some channel =>
        if channel.kind ≠ ChannelKind.group_replay then m
        else
          { directory := m.directory.remove cid,
            active_group := if m.active_group = some cid then none
                            else m.active_group }

/-- One operation against the channel control plane, combining the directory
level calls (upsert, remove) with the manager lifecycle calls. -/
inductive ChannelOp where
  | upsert (c : ChannelDescriptor) (advertise : Bool)
  | remove (channel_id : String)
  | start (identifier : ReplayIdentifier) (stream : String) (display : Option String)
  | stop (channel_id : Option String)

/-- Application of one operation. -/
def applyChannelOp (fromIso : String → Option DT) (m : ChannelManager) :
    ChannelOp → ChannelManager
  | .upsert c advertise => { m with directory := m.directory.upsert c advertise }
  | .remove cid => { m with directory := m.directory.remove cid }
  | .start ident stream display => m.start_group_replay fromIso ident stream display
  | .stop cid => m.stop_group_replay cid

/-- Application of a sequence of operations from the initial manager. -/
def runChannelOps (fromIso : String → Option DT) (ops : List ChannelOp) :
    ChannelManager :=
  ops.foldl (applyChannelOp fromIso) ChannelManager.init

/-- A raw upsert is well formed when its descriptor is one of the replay
kinds the module constructors produce and does not reuse the reserved
livestream key; the lifecycle operations are always well formed. -/
def ChannelOp.wellFormed : ChannelOp → Bool
  | .upsert c _ =>
    (c.kind = ChannelKind.group_replay || c.kind = ChannelKind.private_replay) &&
      c.channel_id ≠ "livestream"
  | _ => true

/-- The non-strict version of the list_channels sort key order. -/
def channelLeP (a b : ChannelDescriptor) : Prop :=
  sortOrderOf a.kind < sortOrderOf b.kind ∨
    (sortOrderOf a.kind = sortOrderOf b.kind ∧ a.channel_id ≤ b.channel_id)

/-- The directory invariant maintained by all channel operations: a
livestream entry exists, every entry under the livestream key is the
livestream descriptor, and every other entry is a replay descriptor. -/
def DirInv (d : ChannelDirectory) : Prop :=
  (∃ p ∈ d, p.1 = "livestream") ∧
  (∀ p ∈ d, p.1 = "livestream" → p.2 = live_channel) ∧
  (∀ p ∈ d, p.1 ≠ "livestream" →
    (p.2.kind = ChannelKind.group_replay ∨
      p.2.kind = ChannelKind.private_replay))

/-- A group-replay descriptor forged under the livestream key, used to
refute the unrestricted form of the livestream-immortality claim. -/
def rogueChannel : ChannelDescriptor :=
  { channel_id := "livestream", subject := "tspi.channel.replay.rogue",
    display_name := "rogue", kind := ChannelKind.group_replay }

/-! ## Store replayer (src/tspi_kit/replayer.py)

A MessageRecord is a row fetched from the datastore.  The decoded payload
dict and the telemetry extract columns are not read by any replayer code
path, so they are not carried here.  The asynchronous sleep and publish
calls of StoreReplayer._replay are recorded as an event trace. -/

/-- Dataclass MessageRecord of src/tspi_kit/datastore.py, restricted to the
columns the replayer reads. -/
structure MessageRecord where
  id : Nat
  subject : String
  kind : String
  published_ts : ℚ
  headers : List (String × String)
  cbor : List Nat
  recv_epoch_ms : Option ℚ
  recv_iso : Option String := none
  time_s : Option ℚ
  deriving Repr, DecidableEq

/-- Everything after the first dot of a subject, if a dot exists. -/
def afterFirstDot : List Char → Option (List Char)
  | [] => none
  | c :: rest => if c = '.' then some rest else afterFirstDot rest

/-- Function _subject_for_replay: subject.split(count 1)[-1] prefixed by the
playout namespace of the room. -/
def subject_for_replay (room : String) (m : MessageRecord) : String :=
  let suffix := match afterFirstDot m.subject.data with
    | some r => String.mk r
    | none => m.subject
  "player." ++ room ++ ".playout." ++ suffix

/-- Static method StoreReplayer._compute_delay.  Both positivity guards of
the source are kept: a non-positive recv delta falls through to the time_s
branch. -/
def compute_delay (record : MessageRecord) (last_recv_ms last_time_s : Option ℚ) : ℚ :=
  let viaRecv : Option ℚ :=
    match record.recv_epoch_ms, last_recv_ms with
    | some r, some l => if r - l > 0 then some ((r - l) / 1000) else none
    | _, _ => none
  match viaRecv with
  | some d => d
  | none =>
    match record.time_s, last_time_s with
    | some t, some l => if t - l > 0 then t - l else 0
    | _, _ => 0

/-- Header rewriting performed per record inside StoreReplayer._replay. -/
def rewriteHeaders (room : String) (record : MessageRecord) : List (String × String) :=
  let headers := record.headers
  let headers := match dictGet headers "Nats-Msg-Id" with
    | some mid =>
      dictUpd headers "Nats-Msg-Id"
        (mid ++ ":replay:" ++ room ++ ":" ++ toString record.id)
    | none => headers
  if (dictGet headers "X-Replay-Origin").isSome then headers
  else headers ++ [("X-Replay-Origin", "datastore")]

/-- One observable action of StoreReplayer._replay. -/
inductive ReplayEvent where
  | sleep (d : ℚ)
  | publish (subject : String) (data : List Nat) (headers : List (String × String))
  deriving Repr, DecidableEq

/-- The loop body of StoreReplayer._replay: the last seen recv_epoch_ms and
time_s thread through the iteration. -/
def replayGo (room : String) (pace : Bool) :
    List MessageRecord → Option ℚ → Option ℚ → List ReplayEvent
  | [] => fun _ _ => []
  | record :: rest => fun lastR lastT =>
    let delay := compute_delay record lastR lastT
    (if pace ∧ delay > 0 then [ReplayEvent.sleep delay] else []) ++
      ReplayEvent.publish (subject_for_replay room record) record.cbor
        (rewriteHeaders room record) ::
      replayGo room pace rest record.recv_epoch_ms record.time_s

/-- Method StoreReplayer._replay as an event trace. -/
def replayTrace (room : String) (messages : List MessageRecord) (pace : Bool) :
    List ReplayEvent :=
  replayGo room pace messages none none

/-- The sleep durations of a trace, in order. -/
def sleepsOf (events : List ReplayEvent) : List ℚ :=
  events.filterMap fun e =>
    match e with
    | ReplayEvent.sleep d => some d
    | _ => none

/-- The delay of a record relative to its predecessor in the window. -/
def pairDelay (prev : Option MessageRecord) (r : MessageRecord) : ℚ :=
  match prev with
  | none => compute_delay r none none
  | some p => compute_delay r p.recv_epoch_ms p.time_s

/-- Each record of a window paired with its predecessor. -/
def pairsWithPrev (msgs : List MessageRecord) :
    List (Option MessageRecord × MessageRecord) :=
  (none :: msgs.map some).zip msgs

/-- The events one record contributes to a paced replay trace. -/
def expectedEvents (room : String) (pr : Option MessageRecord × MessageRecord) :
    List ReplayEvent :=
  let d := pairDelay pr.1 pr.2
  (if d > 0 then [ReplayEvent.sleep d] else []) ++
    [ReplayEvent.publish (subject_for_replay room pr.2) pr.2.cbor
      (rewriteHeaders room pr.2)]

/-- Modelled from the claim wording of C6, not from the source: the delay
equals the recv_epoch_ms delta whenever both records carry recv_epoch_ms,
else the time_s delta when both carry time_s, else zero. -/
def claimDelay (r : MessageRecord) (lastR lastT : Option ℚ) : ℚ :=
  match r.recv_epoch_ms, lastR with
  | some a, some b => (a - b) / 1000
  | _, _ =>
    match r.time_s, lastT with
    | some a, some b => a - b
    | _, _ => 0

/-- Modelled from the claim wording of C6: the sleeps such a replay would
perform, never sleeping a non-positive duration. -/
def claimGo : List MessageRecord → Option ℚ → Option ℚ → List ℚ
  | [] => fun _ _ => []
  | r :: rest => fun lastR lastT =>
    let d := claimDelay r lastR lastT
    (if d > 0 then [d] else []) ++ claimGo rest r.recv_epoch_ms r.time_s

/-- Modelled from the claim wording of C6: the sleep list of a window. -/
def claimSleeps (msgs : List MessageRecord) : List ℚ :=
  claimGo msgs none none

/-- First record of the C6 counterexample: later receive stamp, earlier
telemetry time. -/
def c6Rec1 : MessageRecord :=
  { id := 1, subject := "tspi.geocentric.1", kind := "telemetry",
    published_ts := 0, headers := [], cbor := [], recv_epoch_ms := some 200,
    time_s := some 1 }

/-- Second record of the C6 counterexample: earlier receive stamp, later
telemetry time. -/
def c6Rec2 : MessageRecord :=
  { id := 2, subject := "tspi.geocentric.1", kind := "telemetry",
    published_ts := 1, headers := [], cbor := [], recv_epoch_ms := some 100,
    time_s := some 5 }

/-! ## Producer (src/tspi_kit/producer.py)

The publisher is abstract in the source; publish calls are returned as a
list.  CBOR encoding is a bijective serialisation of the payload object and
is modelled as the payload object itself.  The recv_iso wall-clock rendering
inside _encode_payload is a stdlib datetime formatting not read by any
claim, and is not carried. -/

/-- Python round(): round half to even, as used for recv_epoch_ms. -/
def pyRound (q : ℚ) : Int :=
  let f := ⌊q⌋
  let r := q - f
  if r < 1 / 2 then f
  else if 1 / 2 < r then f + 1
  else if f % 2 = 0 then f else f + 1

/-- The CBOR-encoded message body built by TSPIProducer._encode_payload. -/
structure ProducerPayload where
  parsed : ParsedTSPI
  recv_epoch_ms : Int
  deriving Repr, DecidableEq

/-- One call to publisher.publish made by the producer. -/
structure ProducerPublish where
  subject : String
  headers : List (String × String)
  body : ProducerPayload
  timestamp : ℚ
  deriving Repr, DecidableEq

/-- Configuration of class TSPIProducer. -/
structure TSPIProducer where
  stream_pfx : String := "tspi"
  allowed_sensors : Option (List Nat) := none
  deriving Repr, DecidableEq

/-- Method TSPIProducer._encode_payload. -/
def TSPIProducer.encode_payload (parsed : ParsedTSPI) (recv_time : ℚ) :
    ProducerPayload :=
  { parsed := parsed, recv_epoch_ms := pyRound (recv_time * 1000) }

/-- Method TSPIProducer._prepare_message; the ValueError raised by
parse_tspi_datagram propagates, the allow-list drop returns none. -/
def TSPIProducer.prepare_message (p : TSPIProducer) (datagram : List Nat)
    (recv_time : ℚ) :
    Except String (Option (String × List (String × String) × ProducerPayload)) :=
  match parse_tspi_datagram datagram with
  | .error e => .error e
  | .ok parsed =>
    match p.allowed_sensors with
    | some allowed =>
      if parsed.sensor_id ∈ allowed then
        .ok (some (build_subject parsed (some p.stream_pfx), message_headers parsed,
          TSPIProducer.encode_payload parsed recv_time))
      else .ok none
    | none =>
      .ok (some (build_subject parsed (some p.stream_pfx), message_headers parsed,
        TSPIProducer.encode_payload parsed recv_time))

/-- Method TSPIProducer.ingest: the returned payload (none when nothing was
published) together with the publish calls that were made. -/
def TSPIProducer.ingest (p : TSPIProducer) (datagram : List Nat)
    (recv_time : ℚ) :
    Except String (Option ProducerPayload × List ProducerPublish) :=
  match p.prepare_message datagram recv_time with
  | .error e => .error e
  | .ok none => .ok (none, [])
  | .ok (some (subject, headers, payload)) =>
    .ok (some payload,
      [{ subject := subject, headers := headers, body := payload,
         timestamp := recv_time }])

/-! ## Archiver (src/tspi_kit/archiver.py)

Only the classification and projection decisions are claim-relevant; the
store insertion itself is exercised through the broker embedding. -/

/-- The three subject filters created by Archiver.start. -/
def archiverFilters : List String := ["tspi.>", "cmd.display.units", "tags.>"]

/-- Whether some archiver consumer receives a subject at all. -/
def archiverDrains (subject : String) : Bool :=
  archiverFilters.any fun f => matchSubject subject f

/-- Whether the first list is an initial segment of the second. -/
def listStartsWith : List Char → List Char → Bool
  | [], _ => true
  | _ :: _, [] => false
  | a :: as, b :: bs => a = b && listStartsWith as bs

/-- Python substring membership: the needle occurs contiguously in the
haystack. -/
def listHasInfix (needle : List Char) : List Char → Bool
  | [] => listStartsWith needle []
  | c :: rest => listStartsWith needle (c :: rest) || listHasInfix needle rest

/-- Static method Archiver._classify_kind. -/
def classify_kind (subject : String) (default_kind : String) : String :=
  if listStartsWith "cmd.display".data subject.data then "command"
  else if listStartsWith "tags.".data subject.data then "tag"
  else if listStartsWith "tspi.".data subject.data || listHasInfix ".tspi.".data subject.data then
    "telemetry"
  else default_kind

/-- The drain-loop decision to call upsert_command for a stored message. -/
def drainCallsUpsertCommand (subject : String) : Bool :=
  listStartsWith "cmd.display".data subject.data

/-- The drain-loop decision to call apply_tag_event for a stored message. -/
def drainCallsApplyTag (subject : String) : Bool :=
  listStartsWith "tags.".data subject.data

/-- The command subject of src/tspi_kit/commands.py for a command name. -/
def commandSubject (name : String) : String :=
  "tspi.cmd.display." ++ name

/-! ## Player state engine (src/tspi_kit/ui/player.py)

Timeline entries are the decoded dicts; only the keys read by the command,
tag and dispatch code paths are carried.  The latest-value display state and
the tag table form the side state; the map smoothing of telemetry handling
touches neither and is omitted.  Playback is modelled for a loaded timeline
with the engine playing, which is the regime all jump claims quantify
over. -/

/-- The payload sub-dict of a command message, restricted to the keys read
by PlayerState._handle_command. -/
structure PCmdPayload where
  units : Option String := none
  marker_color : Option String := none
  deriving Repr, DecidableEq

/-- The payload attribute of a timeline message: absent, a dict, or a
non-dict value (which _handle_command rejects). -/
inductive PPayload where
  | absent
  | dict (p : PCmdPayload)
  | notDict
  deriving Repr, DecidableEq

/-- A timeline message, restricted to the keys the engine reads. -/
structure PMsg where
  cmd_id : Option String := none
  name : Option String := none
  payload : PPayload := PPayload.absent
  id : Option String := none
  status : Option String := none
  deriving Repr, DecidableEq

/-- The dict that message.get of the payload key yields: the absent key
defaults to an empty dict, a non-dict value is rejected. -/
def payloadDict : PPayload → Option PCmdPayload
  | PPayload.absent => some {}
  | PPayload.dict p => some p
  | PPayload.notDict => none

/-- Static method PlayerState._is_tag_event. -/
def PMsg.isTagEvent (m : PMsg) : Bool :=
  m.id.isSome && m.status.isSome && m.cmd_id.isNone

/-- The latest-value display settings and tag table of PlayerState. -/
structure SideState where
  display_units : String
  marker_color : String
  tags : List (String × PMsg)
  deriving Repr, DecidableEq

/-- Method PlayerState._handle_command restricted to its state effect. -/
def handleCommandSide (m : PMsg) (s : SideState) : SideState :=
  match payloadDict m.payload with
  | none => s
  | some pd =>
    match m.name with
    | some "display.units" =>
      let units := asciiLower (pd.units.getD "")
      if (units = "metric" ∨ units = "imperial") ∧ units ≠ s.display_units then
        { s with display_units := units }
      else s
    | some "display.marker_color" =>
      let color := pd.marker_color.getD ""
      if color ≠ "" ∧ color ≠ s.marker_color then { s with marker_color := color }
      else s
    | _ => s

/-- Method PlayerState._handle_tag restricted to its state effect. -/
def handleTagSide (m : PMsg) (s : SideState) : SideState :=
  let tag_id := pyStrip (m.id.getD "")
  if tag_id = "" then s
  else
    let status := asciiLower (m.status.getD "")
    if status = "deleted" then { s with tags := s.tags.filter fun p => p.1 ≠ tag_id }
    else { s with tags := dictUpd s.tags tag_id m }

/-- The dispatch shared by _handle_message and _replay_sideband: commands
and tag events update the side state, telemetry does not touch it. -/
def sideStep (m : PMsg) (s : SideState) : SideState :=
  if m.cmd_id.isSome then handleCommandSide m s
  else if m.isTagEvent then handleTagSide m s
  else s

/-- The playback fields of PlayerState relevant to the jump claims. -/
structure PlayerState where
  position : Nat
  sideband_cursor : Nat
  side : SideState
  deriving Repr, DecidableEq

/-- A fresh PlayerState with the configured default units and marker
colour. -/
def initPlayer (units marker : String) : PlayerState :=
  { position := 0, sideband_cursor := 0,
    side := { display_units := units, marker_color := marker, tags := [] } }

/-- Method PlayerState._tick for a playing engine whose cursor is inside
the loaded timeline: materialise the message at the position, advance, and
raise the sideband cursor. -/
def stepOnce (tl : List PMsg) (s : PlayerState) : PlayerState :=
  if h : s.position < tl.length then
    { position := s.position + 1,
      sideband_cursor := max s.sideband_cursor (s.position + 1),
      side := sideStep (tl.get ⟨s.position, h⟩) s.side }
  else s

/-- Repeated step_once. -/
def playSteps (tl : List PMsg) (n : Nat) (s : PlayerState) : PlayerState :=
  match n with
  | 0 => s
  | k + 1 => playSteps tl k (stepOnce tl s)

/-- Method PlayerState._replay_sideband over the slice start..fin of the
timeline (the Python slice clamps to the list length by itself). -/
def replaySideband (tl : List PMsg) (start fin : Nat) (s : SideState) : SideState :=
  if fin ≤ start then s
  else ((tl.drop start).take (fin - start)).foldl (fun acc m => sideStep m acc) s

/-- Method PlayerState._handle_jump, applied after the position moved. -/
def handleJump (tl : List PMsg) (previous current : Nat) (s : PlayerState) :
    PlayerState :=
  if current > previous then
    { s with side := replaySideband tl previous current s.side,
             sideband_cursor := current }
  else if current < previous then
    { s with sideband_cursor := min s.sideband_cursor current }
  else s

/-- Method PlayerState.scrub_to_index (a negative Python index would clamp
to zero, which the Nat argument already captures). -/
def scrub_to_index (tl : List PMsg) (s : PlayerState) (index : Nat) : PlayerState :=
  if tl.isEmpty then s
  else
    let previous := s.position
    let idx := min index (tl.length - 1)
    handleJump tl previous idx { s with position := idx }

/-! ## Witness data and auxiliary predicates -/

deriving instance DecidableEq for Except

/-- The S1 header bytes C1 04 01F5 007B 00003BEC FF 0001. -/
def s1Header : List Nat :=
  [0xC1, 0x04, 0x01, 0xF5, 0x00, 0x7B, 0x00, 0x00, 0x3B, 0xEC, 0xFF, 0x00, 0x01]

/-- The broker invariant tying the dedup dict and the per-id stored count
to the set of ids seen so far. -/
def BrokerInv (js : InMemoryJetStream) (ids : List String) : Prop :=
  (∀ x, dedupHas js x = true ↔ x ∈ ids) ∧
  (∀ x, countWithId js x = if x ∈ ids then 1 else 0)

/-- First publish of the C3 witness scenario. -/
def c3ReqA : PublishRequest :=
  { subject := "s", payload := [], headers := some [("Nats-Msg-Id", "a")] }

/-- Second publish of the C3 witness scenario, same id, different body. -/
def c3ReqB : PublishRequest :=
  { subject := "s", payload := [1], headers := some [("Nats-Msg-Id", "a")] }

/-- The parsed record of the S1 datagram over an all-zero payload, written
as the value the codec computes so that the parse equation holds by
unfolding. -/
def c7Parsed : ParsedTSPI :=
  match parse_tspi_datagram (s1Header ++ List.replicate 24 0) with
  | .ok r => r
  | .error _ =>
    { type := "", sensor_id := 0, day := 0, time_s := 0, time_ticks := 0,
      status := 0, status_flags := [], payload := [], version := 0 }

/-- The operation list of the C9 witness: one group replay start. -/
def c9Ops : List ChannelOp :=
  [ChannelOp.start (ReplayIdentifier.dt ⟨2025, 9, 28, 11, 0, 0⟩) "TSPI" none]

/-- The tag message of the S5 scenario. -/
def c1TagMsg : PMsg := { id := some "x", status := some "active" }

/-- The S5 timeline: telemetry, a units command, an active tag, more
telemetry. -/
def c1Timeline : List PMsg :=
  [{},
   { cmd_id := some "c-1", name := some "display.units",
     payload := PPayload.dict { units := some "imperial" } },
   c1TagMsg,
   {}]

/-- The side state reached after the S5 scenario. -/
def c1Side : SideState :=
  { display_units := "imperial", marker_color := "red",
    tags := [("x", c1TagMsg)] }

/-! # Claim theorems -/


/-! ## C2: codec parse postcondition -/

/-- Appending a 24-byte payload to the S1 header parses successfully with
the S1 header fields. -/
theorem parse_s1_header (payload : List Nat) (hlen : payload.length = 24) :
    parse_tspi_datagram (s1Header ++ payload) =
      (parseGeocentric payload).map fun parsed =>
        { type := "geocentric", sensor_id := 501, day := 123,
          time_s := (15340 : ℚ) / 10000, time_ticks := 15340,
          status := 0xFF, status_flags := statusBits 0xFF 1,
          payload := parsed, version := 4 } := by
  have hfull : (s1Header ++ payload).length = 37 := by
    simp [s1Header, hlen]
  have hdrop : (s1Header ++ payload).drop 13 = payload := by
    simp [s1Header]
  simp only [parse_tspi_datagram, hfull, hdrop]
  norm_num [s1Header, byteAt, be16, be32]

/-- C2: for the 37-byte datagram with header C1 04 01F5 007B 00003BEC FF
0001 and any well-sized geocentric payload, parse_tspi_datagram yields
type geocentric, sensor 501, day 123, ticks 15340, time 1.534 s, status
0xFF, deduplication id 501:123:15340 and default subject
tspi.geocentric.501; in general time_s is time_ticks / 10000, the
deduplication id is sensor:day:ticks, and the subject is
prefix.kind.sensor. -/
theorem claim_C2_codec_parse :
    (∀ payload : List Nat, payload.length = 24 →
      ∃ r, parse_tspi_datagram (s1Header ++ payload) = .ok r ∧
        r.type = "geocentric" ∧ r.sensor_id = 501 ∧ r.day = 123 ∧
        r.time_ticks = 15340 ∧ r.time_s = (1.534 : ℚ) ∧ r.status = 0xFF ∧
        r.deduplication_id = "501:123:15340" ∧
        build_subject r = "tspi.geocentric.501") ∧
    (∀ d r, parse_tspi_datagram d = .ok r →
      r.time_s = (r.time_ticks : ℚ) / 10000) ∧
    (∀ r : ParsedTSPI, r.deduplication_id =
      toString r.sensor_id ++ ":" ++ toString r.day ++ ":" ++ toString r.time_ticks) ∧
    (∀ (r : ParsedTSPI) (pfx : String), pfx ≠ "" →
      build_subject r (some pfx) = pfx ++ "." ++ r.type ++ "." ++ toString r.sensor_id) := by
  refine ⟨?_, ?_, ?_, ?_⟩
  · intro payload hlen
    have hp : ∃ parsed, parseGeocentric payload = .ok parsed := by
      simp [parseGeocentric, hlen]
    obtain ⟨parsed, hp⟩ := hp
    refine ⟨{ type := "geocentric", sensor_id := 501, day := 123,
              time_s := (15340 : ℚ) / 10000, time_ticks := 15340, status := 0xFF,
              status_flags := statusBits 0xFF 1, payload := parsed, version := 4 },
            ?_, rfl, rfl, rfl, rfl, by norm_num, rfl,
            by dsimp only [ParsedTSPI.deduplication_id]; decide,
            by dsimp only [build_subject]; decide⟩
    rw [parse_s1_header payload hlen, hp]
    rfl
  · intro d r h
    simp only [parse_tspi_datagram] at h
    split at h
    · exact absurd h (by simp)
    · split at h
      · exact absurd h (by simp)
      · split at h
        · exact absurd h (by simp)
        · split at h
          · rcases hpg : parseGeocentric (d.drop 13) with e | parsed <;>
              rw [hpg] at h <;> simp [Except.map] at h
            rw [← h]
          · rcases hps : parseSpherical (d.drop 13) with e | parsed <;>
              rw [hps] at h <;> simp [Except.map] at h
            rw [← h]
  · intro r
    rfl
  · intro r pfx hne
    simp [build_subject, hne]

/-- Witness for C2 at the all-zero geocentric payload. -/
theorem claim_C2_codec_parse_witness :
    (∃ r, parse_tspi_datagram (s1Header ++ List.replicate 24 0) = .ok r ∧
      r.type = "geocentric" ∧ r.sensor_id = 501 ∧ r.day = 123 ∧
      r.time_ticks = 15340 ∧ r.time_s = (1.534 : ℚ) ∧ r.status = 0xFF ∧
      r.deduplication_id = "501:123:15340" ∧
      build_subject r = "tspi.geocentric.501") ∧
    (∀ r : ParsedTSPI, r.deduplication_id =
      toString r.sensor_id ++ ":" ++ toString r.day ++ ":" ++ toString r.time_ticks) :=
  ⟨claim_C2_codec_parse.1 (List.replicate 24 0) (by decide),
   claim_C2_codec_parse.2.2.1⟩

/-! ## C3 and C10: broker publish idempotency -/

/-- Publishing without a Nats-Msg-Id header appends and leaves the dedup
dict untouched. -/
theorem publish_none (js : InMemoryJetStream) (r : PublishRequest)
    (h : r.msgId = none) :
    js.publish r =
      ({ messages := js.messages ++ [r.toMessage], dedup := js.dedup }, true) := by
  simp [InMemoryJetStream.publish, h]

/-- Publishing a suppressed id is a no-op returning false. -/
theorem publish_dup (js : InMemoryJetStream) (r : PublishRequest) (m : String)
    (h : r.msgId = some m) (hd : dedupHas js m = true) :
    js.publish r = (js, false) := by
  simp [InMemoryJetStream.publish, h, hd]

/-- Publishing a fresh id appends the message and registers the id. -/
theorem publish_new (js : InMemoryJetStream) (r : PublishRequest) (m : String)
    (h : r.msgId = some m) (hd : dedupHas js m = false) :
    js.publish r =
      ({ messages := js.messages ++ [r.toMessage],
         dedup := js.dedup ++ [(m, r.toMessage)] }, true) := by
  simp [InMemoryJetStream.publish, h, hd]

/-- The stored message of a request carries the Nats-Msg-Id of the
request. -/
theorem toMessage_msgId (r : PublishRequest) :
    dictGet r.toMessage.headers "Nats-Msg-Id" = r.msgId := rfl

/-- Counting messages with a given id distributes over an appended
message. -/
theorem countWithId_append (ms : List JetStreamMessage)
    (d : List (String × JetStreamMessage)) (msg : JetStreamMessage) (x : String) :
    countWithId { messages := ms ++ [msg], dedup := d } x =
      countWithId { messages := ms, dedup := d } x +
        (if dictGet msg.headers "Nats-Msg-Id" = some x then 1 else 0) := by
  simp only [countWithId, List.filter_append, List.length_append]
  split <;> simp_all

/-- Extending the dedup dict extends its membership test. -/
theorem dedupHas_append (ms : List JetStreamMessage)
    (d : List (String × JetStreamMessage)) (m : String) (msg : JetStreamMessage)
    (x : String) :
    dedupHas { messages := ms, dedup := d ++ [(m, msg)] } x =
      (dedupHas { messages := ms, dedup := d } x || x = m) := by
  simp only [dedupHas, List.find?_append]
  by_cases hmx : m = x
  · rcases hf : d.find? fun p => p.1 = x with _ | p <;>
      simp [hf, List.find?, hmx, Option.orElse]
  · have hxm : ¬x = m := fun h => hmx h.symm
    rcases hf : d.find? fun p => p.1 = x with _ | p <;>
      simp [hf, List.find?, hmx, hxm, Option.orElse]

/-- One publish preserves the broker invariant, adding its id if any. -/
theorem brokerInv_step (js : InMemoryJetStream) (ids : List String)
    (r : PublishRequest) (hinv : BrokerInv js ids) :
    BrokerInv (js.publish r).1 (ids ++ carriedIds [r]) := by
  obtain ⟨hded, hcnt⟩ := hinv
  rcases hid : r.msgId with _ | m
  · have : carriedIds [r] = [] := by simp [carriedIds, hid]
    rw [this, List.append_nil, publish_none js r hid]
    refine ⟨?_, ?_⟩
    · intro x
      exact hded x
    · intro x
      have := countWithId_append js.messages js.dedup r.toMessage x
      rw [toMessage_msgId, hid] at this
      simp only [this]
      simp [hcnt x]
  · have hcar : carriedIds [r] = [m] := by simp [carriedIds, hid]
    rw [hcar]
    by_cases hd : dedupHas js m = true
    · rw [publish_dup js r m hid hd]
      have hm : m ∈ ids := (hded m).mp hd
      refine ⟨?_, ?_⟩
      · intro x
        rw [hded x]
        constructor
        · intro h
          exact List.mem_append_left _ h
        · intro h
          rcases List.mem_append.mp h with h | h
          · exact h
          · simp at h
            rw [h]
            exact hm
      · intro x
        rw [hcnt x]
        by_cases hx : x ∈ ids
        · simp [hx, List.mem_append]
        · have hnot : ¬x ∈ ids ++ [m] := by
            intro hmem
            rcases List.mem_append.mp hmem with h | h
            · exact hx h
            · simp at h
              rw [h] at hx
              exact hx hm
          simp [hx, hnot]
    · have hd' : dedupHas js m = false := by
        simpa using hd
      rw [publish_new js r m hid hd']
      have hm : ¬m ∈ ids := by
        intro hmem
        have htrue := (hded m).mpr hmem
        rw [htrue] at hd'
        simp at hd'
      refine ⟨?_, ?_⟩
      · intro x
        have hstep := dedupHas_append (js.messages ++ [r.toMessage]) js.dedup m
          r.toMessage x
        have hsame :
            dedupHas { messages := js.messages ++ [r.toMessage],
                       dedup := js.dedup } x = dedupHas js x := rfl
        rw [hstep, hsame]
        simp only [List.mem_append, Bool.or_eq_true, decide_eq_true_eq,
          List.mem_singleton]
        rw [hded x]
      · intro x
        have hc := countWithId_append js.messages
          (js.dedup ++ [(m, r.toMessage)]) r.toMessage x
        have hsame :
            countWithId { messages := js.messages,
                          dedup := js.dedup ++ [(m, r.toMessage)] } x =
              countWithId js x := rfl
        rw [hc, hsame, toMessage_msgId, hid, hcnt x]
        by_cases hx : x ∈ ids
        · have hxm : x ≠ m := fun h => hm (h ▸ hx)
          have hmx : ¬m = x := fun h => hxm h.symm
          simp [hx, hmx]
        · by_cases hxm : x = m
          · subst hxm
            simp [hx]
          · have hmx : ¬m = x := fun h => hxm h.symm
            simp [hx, hxm, hmx]

/-- The invariant holds along any run from the empty broker. -/
theorem brokerInv_run (reqs : List PublishRequest) (js : InMemoryJetStream)
    (ids : List String) (hinv : BrokerInv js ids) :
    BrokerInv (runPublishes reqs js) (ids ++ carriedIds reqs) := by
  induction reqs generalizing js ids with
  | nil => simpa [runPublishes, carriedIds]
  | cons r rest ih =>
    have hstep := brokerInv_step js ids r hinv
    have := ih (js.publish r).1 (ids ++ carriedIds [r]) hstep
    have hcar : (ids ++ carriedIds [r]) ++ carriedIds rest =
        ids ++ carriedIds (r :: rest) := by
      simp [carriedIds, List.filterMap_cons]
      rcases r.msgId with _ | m <;> simp
    rw [hcar] at this
    simpa [runPublishes] using this

/-- The invariant specialised to the empty broker. -/
theorem brokerInv_empty : BrokerInv InMemoryJetStream.empty [] := by
  constructor
  · intro x
    simp [dedupHas, InMemoryJetStream.empty]
  · intro x
    simp [countWithId, InMemoryJetStream.empty]

/-- C3: along any publish sequence from an empty broker, a publish whose
Nats-Msg-Id was already carried by an earlier publish is a no-op returning
false, a publish with a fresh id appends and returns true, and after the
whole sequence exactly one stored message carries that id. -/
theorem claim_C3_publish_idempotency (reqs : List PublishRequest)
    (r : PublishRequest) (x : String) (hid : r.msgId = some x) :
    ((x ∈ carriedIds reqs →
        ((runPublishes reqs InMemoryJetStream.empty).publish r).1.messages =
          (runPublishes reqs InMemoryJetStream.empty).messages ∧
        ((runPublishes reqs InMemoryJetStream.empty).publish r).2 = false) ∧
     (x ∉ carriedIds reqs →
        ((runPublishes reqs InMemoryJetStream.empty).publish r).1.messages =
          (runPublishes reqs InMemoryJetStream.empty).messages ++ [r.toMessage] ∧
        ((runPublishes reqs InMemoryJetStream.empty).publish r).2 = true) ∧
     countWithId (runPublishes (reqs ++ [r]) InMemoryJetStream.empty) x = 1) := by
  have hinv := brokerInv_run reqs InMemoryJetStream.empty [] brokerInv_empty
  rw [List.nil_append] at hinv
  obtain ⟨hded, _⟩ := hinv
  refine ⟨?_, ?_, ?_⟩
  · intro hmem
    have hd : dedupHas (runPublishes reqs InMemoryJetStream.empty) x = true :=
      (hded x).mpr hmem
    rw [publish_dup _ r x hid hd]
    exact ⟨rfl, rfl⟩
  · intro hmem
    have hd : dedupHas (runPublishes reqs InMemoryJetStream.empty) x = false := by
      rcases hb : dedupHas (runPublishes reqs InMemoryJetStream.empty) x
      · rfl
      · exact absurd ((hded x).mp hb) hmem
    rw [publish_new _ r x hid hd]
    exact ⟨rfl, rfl⟩
  · have hinv2 := brokerInv_run (reqs ++ [r]) InMemoryJetStream.empty []
      brokerInv_empty
    rw [List.nil_append] at hinv2
    obtain ⟨_, hcnt2⟩ := hinv2
    have hx : x ∈ carriedIds (reqs ++ [r]) := by
      have : carriedIds (reqs ++ [r]) = carriedIds reqs ++ carriedIds [r] := by
        simp [carriedIds]
      rw [this]
      refine List.mem_append_right _ ?_
      simp [carriedIds, hid]
    rw [hcnt2 x]
    simp [hx]

/-- Witness for C3: the same id published twice from empty is suppressed
the second time and stores exactly one message. -/
theorem claim_C3_publish_idempotency_witness :
    c3ReqB.msgId = some "a" ∧
    "a" ∈ carriedIds [c3ReqA] ∧
    ((runPublishes [c3ReqA] InMemoryJetStream.empty).publish c3ReqB).2 = false ∧
    countWithId (runPublishes ([c3ReqA] ++ [c3ReqB]) InMemoryJetStream.empty)
      "a" = 1 :=
  ⟨by decide, by decide,
   ((claim_C3_publish_idempotency [c3ReqA] c3ReqB "a" (by decide)).1
     (by decide)).2,
   (claim_C3_publish_idempotency [c3ReqA] c3ReqB "a" (by decide)).2.2⟩

/-- C10: a publish without a Nats-Msg-Id header always appends and returns
true, leaves the dedup dict untouched, and the suppression decision of any
later publish is exactly what it would have been without it. -/
theorem claim_C10_headerless_publish (js : InMemoryJetStream)
    (r : PublishRequest) (h : r.msgId = none) :
    js.publish r =
      ({ messages := js.messages ++ [r.toMessage], dedup := js.dedup }, true) ∧
    (∀ r2 : PublishRequest, ((js.publish r).1.publish r2).2 = (js.publish r2).2) := by
  refine ⟨publish_none js r h, ?_⟩
  intro r2
  rw [publish_none js r h]
  rcases h2 : r2.msgId with _ | m
  · rw [publish_none _ r2 h2, publish_none js r2 h2]
  · have hsame :
        dedupHas { messages := js.messages ++ [r.toMessage],
                   dedup := js.dedup } m = dedupHas js m := rfl
    by_cases hd : dedupHas js m = true
    · rw [publish_dup _ r2 m h2 (hsame.trans hd), publish_dup js r2 m h2 hd]
    · have hd' : dedupHas js m = false := by simpa using hd
      rw [publish_new _ r2 m h2 (hsame.trans hd'), publish_new js r2 m h2 hd']

/-- Witness for C10 on a concrete broker state. -/
theorem claim_C10_headerless_publish_witness :
    InMemoryJetStream.publish InMemoryJetStream.empty
        { subject := "s", payload := [2] } =
      ({ messages := InMemoryJetStream.empty.messages ++
          [PublishRequest.toMessage { subject := "s", payload := [2] }],
         dedup := InMemoryJetStream.empty.dedup }, true) ∧
    (∀ r2 : PublishRequest,
      ((InMemoryJetStream.publish InMemoryJetStream.empty
          { subject := "s", payload := [2] }).1.publish r2).2 =
        (InMemoryJetStream.empty.publish r2).2) :=
  claim_C10_headerless_publish InMemoryJetStream.empty
    { subject := "s", payload := [2] } (by decide)

/-! ## C5: subject filter wildcard semantics -/

/-- C5 counterexample: the pattern p.> does match the bare subject p, because
the loop of _match_subject returns true on a > pattern token before checking
that any subject token remains. -/
theorem claim_C5_wildcards_counterexample : matchSubject "p" "p.>" = true := by
  decide

/-- Concatenating split fields with the separator restores the input. -/
theorem pySplitChar_ne_nil (sep : Char) (l : List Char) :
    pySplitChar sep l ≠ [] := by
  cases l with
  | nil => simp [pySplitChar]
  | cons c rest =>
    simp only [pySplitChar]
    by_cases h : c = sep
    · simp [h]
    · simp only [h, if_false]
      rcases hs : pySplitChar sep rest with _ | ⟨t, ts⟩ <;> simp

/-- pySplitChar loses no information: joining restores the input. -/
theorem joinChar_pySplitChar (sep : Char) (l : List Char) :
    joinChar sep (pySplitChar sep l) = l := by
  induction l with
  | nil => simp [pySplitChar, joinChar]
  | cons c rest ih =>
    simp only [pySplitChar]
    by_cases h : c = sep
    · simp only [h, if_true]
      rcases hs : pySplitChar sep rest with _ | ⟨t, ts⟩
      · exact absurd hs (pySplitChar_ne_nil sep rest)
      · rw [hs] at ih
        simp [joinChar, ← ih, h]
    · simp only [h, if_false]
      rcases hs : pySplitChar sep rest with _ | ⟨t, ts⟩
      · exact absurd hs (pySplitChar_ne_nil sep rest)
      · rw [hs] at ih
        cases ts with
        | nil => simp_all [joinChar]
        | cons t2 ts2 => simp_all [joinChar]

/-- Subjects with equal token lists are equal. -/
theorem splitSubject_inj (s p : String) (h : splitSubject s = splitSubject p) :
    s = p := by
  have hdata : pySplitChar '.' s.data = pySplitChar '.' p.data := by
    have hinj : Function.Injective String.mk := fun a b hab => by
      injection hab
    exact List.map_injective_iff.mpr hinj h
  have hs := joinChar_pySplitChar '.' s.data
  have hp := joinChar_pySplitChar '.' p.data
  rw [hdata] at hs
  have hsp : s.data = p.data := hs.symm.trans hp
  cases s
  cases p
  exact congrArg String.mk hsp

/-- Matching a pattern without wildcards demands exactly the same tokens. -/
theorem matchTokens_no_wildcards (pt : List String)
    (hw : ∀ t ∈ pt, t ≠ ">" ∧ t ≠ "*") (st : List String) :
    matchTokens pt st = true ↔ st = pt := by
  induction pt generalizing st with
  | nil =>
    cases st with
    | nil => simp [matchTokens]
    | cons s ss => simp [matchTokens]
  | cons p ps ih =>
    obtain ⟨hgt, hstar⟩ := hw p (List.mem_cons_self p ps)
    have hw' : ∀ t ∈ ps, t ≠ ">" ∧ t ≠ "*" := fun t ht =>
      hw t (List.mem_cons_of_mem p ht)
    cases st with
    | nil => simp [matchTokens, hgt]
    | cons s ss =>
      simp only [matchTokens, hgt, if_false]
      by_cases hsp : s = p
      · have : matchToken s p = true := by
          simp [matchToken, hgt, hstar, hsp]
        simp only [this, if_true]
        rw [ih hw' ss]
        simp [hsp]
      · have : matchToken s p = false := by
          simp [matchToken, hgt, hstar, hsp]
        simp [this, hsp]

/-- C5 amended: a pattern token * matches exactly one subject token; a
pattern token > matches all remaining subject tokens, including none, so
p.> also matches the bare subject p; and a pattern with no wildcards matches
only the identical subject. -/
theorem claim_C5_wildcards_amended :
    (∀ (ps : List String) (s : String) (ss : List String),
      matchTokens ("*" :: ps) (s :: ss) = matchTokens ps ss) ∧
    (∀ ps : List String, matchTokens ("*" :: ps) [] = false) ∧
    (∀ (ps subj : List String), matchTokens (">" :: ps) subj = true) ∧
    (matchSubject "p" "p.>" = true ∧ matchSubject "p.a" "p.>" = true ∧
     matchSubject "p.a.b" "p.>" = true ∧ matchSubject "q.a" "p.>" = false) ∧
    (∀ s p : String, (∀ t ∈ splitSubject p, t ≠ ">" ∧ t ≠ "*") →
      (matchSubject s p = true ↔ s = p)) := by
  refine ⟨?_, ?_, ?_, ⟨by decide, by decide, by decide, by decide⟩, ?_⟩
  · intro ps s ss
    simp [matchTokens, matchToken]
  · intro ps
    simp [matchTokens]
  · intro ps subj
    simp [matchTokens]
  · intro s p hw
    by_cases hp : p = ">"
    · exfalso
      have : ">" ∈ splitSubject p := by
        rw [hp]
        decide
      exact (hw ">" this).1 rfl
    · rw [matchSubject, if_neg hp, matchTokens_no_wildcards (splitSubject p) hw]
      constructor
      · intro h
        exact splitSubject_inj s p h
      · intro h
        rw [h]

/-- Witness for C5 at a concrete wildcard-free pattern. -/
theorem claim_C5_wildcards_amended_witness :
    (∀ t ∈ splitSubject "a.b", t ≠ ">" ∧ t ≠ "*") ∧
    (matchSubject "a.b" "a.b" = true ↔ ("a.b" : String) = "a.b") ∧
    matchTokens (">" :: []) [] = true :=
  ⟨by decide, claim_C5_wildcards_amended.2.2.2.2 "a.b" "a.b" (by decide),
   claim_C5_wildcards_amended.2.2.1 [] []⟩

/-! ## C4: group replay channel derivation

The heart of the label branch is that the slug computed by
_slugify_identifier equals the lowercased alphanumeric runs of the label
joined by dashes, which the following lemmas establish. -/

/-- Alphanumeric characters are not dashes. -/
theorem alnum_ne_dash (c : Char) (h : isAlnumAscii c = true) : ¬c = '-' := by
  intro hc
  rw [hc] at h
  exact absurd h (by decide)

/-- Stripping dashes ignores a leading dash. -/
theorem stripDashes_cons_dash (u : List Char) :
    stripDashes ('-' :: u) = stripDashes u := by
  simp [stripDashes, List.dropWhile_cons]

/-- A dash-free list is untouched by the dash strip. -/
theorem stripDashes_dash_free (u : List Char) (h : ∀ c ∈ u, ¬c = '-') :
    stripDashes u = u := by
  have hdrop : ∀ v : List Char, (∀ c ∈ v, ¬c = '-') →
      (v.dropWhile fun c => c = '-') = v := by
    intro v hv
    cases v with
    | nil => rfl
    | cons a t =>
      have : ¬a = '-' := hv a (List.mem_cons_self a t)
      simp [List.dropWhile_cons, this]
  rw [stripDashes, hdrop u h, hdrop u.reverse fun c hc => h c (List.mem_reverse.mp hc),
    List.reverse_reverse]

/-- A dash-free nonempty list followed by one dash strips back to itself. -/
theorem stripDashes_append_dash (pre : List Char) (hne : pre ≠ [])
    (h : ∀ c ∈ pre, ¬c = '-') : stripDashes (pre ++ ['-']) = pre := by
  cases pre with
  | nil => exact absurd rfl hne
  | cons p0 pre' =>
    have hp0 : ¬p0 = '-' := h p0 (List.mem_cons_self p0 pre')
    have hlead : ((p0 :: pre' ++ ['-']).dropWhile fun c => c = '-') =
        p0 :: pre' ++ ['-'] := by
      simp [List.dropWhile_cons, hp0]
    rw [stripDashes, hlead]
    have hrev : (p0 :: pre' ++ ['-']).reverse = '-' :: (p0 :: pre').reverse := by
      simp
    rw [hrev]
    have hrevfree : ∀ c ∈ (p0 :: pre').reverse, ¬c = '-' := fun c hc =>
      h c (List.mem_reverse.mp hc)
    have hdrop : (((p0 :: pre').reverse).dropWhile fun c => c = '-') =
        (p0 :: pre').reverse := by
      cases hr : (p0 :: pre').reverse with
      | nil => rfl
      | cons a t =>
        have ha : ¬a = '-' := by
          apply hrevfree
          rw [hr]
          exact List.mem_cons_self a t
        simp [List.dropWhile_cons, ha]
    have hstep : (('-' :: (p0 :: pre').reverse).dropWhile fun c => c = '-') =
        (p0 :: pre').reverse := by
      rw [List.dropWhile_cons, if_pos (by decide), hdrop]
    rw [hstep, List.reverse_reverse]

/-- dropWhile stops inside a block containing a failing element. -/
theorem dropWhile_append_of_exists {α : Type} (p : α → Bool) (w z : List α)
    (h : ∃ c ∈ w, ¬p c = true) :
    (w ++ z).dropWhile p = w.dropWhile p ++ z := by
  induction w with
  | nil =>
    obtain ⟨c, hc, _⟩ := h
    exact absurd hc (List.not_mem_nil c)
  | cons a w' ih =>
    by_cases ha : p a = true
    · have h' : ∃ c ∈ w', ¬p c = true := by
        obtain ⟨c, hc, hpc⟩ := h
        rcases List.mem_cons.mp hc with hc | hc
        · rw [hc] at hpc
          exact absurd ha hpc
        · exact ⟨c, hc, hpc⟩
      simp [List.dropWhile_cons, ha, ih h']
    · simp [List.dropWhile_cons, ha]

/-- Stripping dashes around an interior separator keeps the prefix intact
when the suffix has a non-dash head. -/
theorem stripDashes_sep (pre : List Char) (hne : pre ≠ [])
    (hpre : ∀ c ∈ pre, ¬c = '-') (vh : Char) (vt : List Char)
    (hvh : ¬vh = '-') :
    stripDashes (pre ++ '-' :: vh :: vt) = pre ++ '-' :: stripDashes (vh :: vt) := by
  cases pre with
  | nil => exact absurd rfl hne
  | cons p0 pre' =>
    have hp0 : ¬p0 = '-' := hpre p0 (List.mem_cons_self p0 pre')
    have hlead : ((p0 :: pre' ++ '-' :: vh :: vt).dropWhile fun c => c = '-') =
        p0 :: pre' ++ '-' :: vh :: vt := by
      simp [List.dropWhile_cons, hp0]
    have hvlead : ((vh :: vt).dropWhile fun c => c = '-') = vh :: vt := by
      simp [List.dropWhile_cons, hvh]
    rw [stripDashes, hlead, stripDashes, hvlead]
    have hrev : (p0 :: pre' ++ '-' :: vh :: vt).reverse =
        (vh :: vt).reverse ++ '-' :: (p0 :: pre').reverse := by
      simp
    rw [hrev]
    have hex : ∃ c ∈ (vh :: vt).reverse, ¬(c = '-' : Bool) = true := by
      refine ⟨vh, ?_, by simpa using hvh⟩
      rw [List.mem_reverse]
      exact List.mem_cons_self vh vt
    rw [dropWhile_append_of_exists _ _ _ hex]
    simp

/-- The head of a dropWhile result fails the predicate. -/
theorem dropWhile_head_not {α : Type} (p : α → Bool) (l : List α) (b : α)
    (bs : List α) (h : l.dropWhile p = b :: bs) : p b = false := by
  induction l with
  | nil => simp [List.dropWhile] at h
  | cons a t ih =>
    by_cases ha : p a = true
    · rw [List.dropWhile_cons, if_pos ha] at h
      exact ih h
    · rw [List.dropWhile_cons, if_neg ha] at h
      have : b = a := by
        injection h with h1 _
        exact h1.symm
      rw [this]
      simpa using ha

/-- Leading characters that are never alphanumeric do not change the
alphanumeric runs. -/
theorem alnumRuns_dropWhile (q : Char → Bool)
    (hq : ∀ c, q c = true → isAlnumAscii c = false) (u : List Char) :
    alnumRuns (u.dropWhile q) = alnumRuns u := by
  induction u with
  | nil => rfl
  | cons c rest ih =>
    by_cases hc : q c = true
    · have hnc : isAlnumAscii c = false := hq c hc
      rw [List.dropWhile_cons, if_pos hc, ih]
      rw [alnumRuns]
      simp [hnc]
    · rw [List.dropWhile_cons, if_neg hc]

/-- A list with no alphanumeric characters has no runs. -/
theorem alnumRuns_none (w : List Char) (hw : ∀ c ∈ w, isAlnumAscii c = false) :
    alnumRuns w = [] := by
  induction w with
  | nil => simp [alnumRuns]
  | cons c rest ih =>
    have hc := hw c (List.mem_cons_self c rest)
    rw [alnumRuns]
    simp only [hc]
    simp only [Bool.false_eq_true, if_false]
    exact ih fun c₂ hc₂ => hw c₂ (List.mem_cons_of_mem c hc₂)

/-- takeWhile through an all-satisfying prefix. -/
theorem takeWhile_all {α : Type} (p : α → Bool) (u v : List α)
    (h : ∀ c ∈ u, p c = true) : (u ++ v).takeWhile p = u ++ v.takeWhile p := by
  induction u with
  | nil => simp
  | cons a u' ih =>
    have ha := h a (List.mem_cons_self a u')
    simp [List.takeWhile_cons, ha,
      ih fun c hc => h c (List.mem_cons_of_mem a hc)]

/-- dropWhile through an all-satisfying prefix. -/
theorem dropWhile_all {α : Type} (p : α → Bool) (u v : List α)
    (h : ∀ c ∈ u, p c = true) : (u ++ v).dropWhile p = v.dropWhile p := by
  induction u with
  | nil => simp
  | cons a u' ih =>
    have ha := h a (List.mem_cons_self a u')
    simp [List.dropWhile_cons, ha,
      ih fun c hc => h c (List.mem_cons_of_mem a hc)]

/-- takeWhile stops inside a block containing a failing element. -/
theorem takeWhile_append_of_exists {α : Type} (p : α → Bool) (w z : List α)
    (h : ∃ c ∈ w, ¬p c = true) :
    (w ++ z).takeWhile p = w.takeWhile p := by
  induction w with
  | nil =>
    obtain ⟨c, hc, _⟩ := h
    exact absurd hc (List.not_mem_nil c)
  | cons a w' ih =>
    by_cases ha : p a = true
    · have h' : ∃ c ∈ w', ¬p c = true := by
        obtain ⟨c, hc, hpc⟩ := h
        rcases List.mem_cons.mp hc with hc | hc
        · rw [hc] at hpc
          exact absurd ha hpc
        · exact ⟨c, hc, hpc⟩
      simp [List.takeWhile_cons, ha, ih h']
    · simp [List.takeWhile_cons, ha]

/-- takeWhile of a list whose head fails, stated through all elements. -/
theorem takeWhile_none {α : Type} (p : α → Bool) (v : List α)
    (h : ∀ c ∈ v, p c = false) : v.takeWhile p = [] := by
  cases v with
  | nil => rfl
  | cons a t =>
    have := h a (List.mem_cons_self a t)
    simp [List.takeWhile_cons, this]

/-- dropWhile of a list whose head fails keeps everything. -/
theorem dropWhile_none {α : Type} (p : α → Bool) (v : List α)
    (h : ∀ c ∈ v, p c = false) : v.dropWhile p = v := by
  cases v with
  | nil => rfl
  | cons a t =>
    have := h a (List.mem_cons_self a t)
    simp [List.dropWhile_cons, this]

/-- A trailing block without alphanumerics does not change the runs. -/
theorem alnumRuns_append_none (w : List Char)
    (hw : ∀ c ∈ w, isAlnumAscii c = false) :
    ∀ (n : Nat) (u : List Char), u.length ≤ n →
      alnumRuns (u ++ w) = alnumRuns u := by
  intro n
  induction n with
  | zero =>
    intro u hu
    have : u = [] := List.length_eq_zero.mp (Nat.le_zero.mp hu)
    rw [this, List.nil_append, alnumRuns_none w hw]
    simp [alnumRuns]
  | succ n ih =>
    intro u hu
    cases u with
    | nil =>
      rw [List.nil_append, alnumRuns_none w hw]
      simp [alnumRuns]
    | cons c rest =>
      by_cases hc : isAlnumAscii c = true
      · rw [List.cons_append, alnumRuns, alnumRuns]
        simp only [hc, if_true]
        by_cases hall : ∀ x ∈ rest, isAlnumAscii x = true
        · rw [takeWhile_all _ rest w hall, takeWhile_none _ w hw,
            dropWhile_all _ rest w hall, dropWhile_none _ w hw,
            alnumRuns_none w hw]
          have h1 : rest.takeWhile isAlnumAscii = rest := by
            have := takeWhile_all isAlnumAscii rest [] hall
            simpa using this
          have h2 : rest.dropWhile isAlnumAscii = [] := by
            have := dropWhile_all isAlnumAscii rest [] hall
            simpa using this
          rw [h1, h2]
          simp [alnumRuns]
        · push_neg at hall

          obtain ⟨x, hx, hpx⟩ := hall
          have hex : ∃ cc ∈ rest, ¬isAlnumAscii cc = true := ⟨x, hx, hpx⟩
          rw [takeWhile_append_of_exists _ rest w hex,
            dropWhile_append_of_exists _ rest w hex]
          have hlen : (rest.dropWhile isAlnumAscii).length ≤ n := by
            have h1 := dropWhileLenLe isAlnumAscii rest
            have h2 : rest.length ≤ n := by
              simpa using Nat.le_of_succ_le_succ (by simpa using hu)
            omega
          rw [ih (rest.dropWhile isAlnumAscii) hlen]
      · rw [List.cons_append, alnumRuns, alnumRuns]
        simp only [hc]
        simp only [Bool.false_eq_true, if_false]
        have hlen : rest.length ≤ n := by
          simpa using Nat.le_of_succ_le_succ (by simpa using hu)
        exact ih rest hlen

/-- The rewrite of subNonAlnum through an alphanumeric prefix. -/
theorem subNonAlnum_alnum_pre (tw dw : List Char)
    (h : ∀ c ∈ tw, isAlnumAscii c = true) :
    subNonAlnum (tw ++ dw) = tw ++ subNonAlnum dw := by
  induction tw with
  | nil => simp
  | cons a tw' ih =>
    have ha := h a (List.mem_cons_self a tw')
    rw [List.cons_append, subNonAlnum]
    simp only [ha, if_true]
    rw [ih fun c hc => h c (List.mem_cons_of_mem a hc)]
    simp

/-- The core equivalence: stripping the dashes of the regular-expression
substitution yields exactly the alphanumeric runs joined by dashes. -/
theorem stripDashes_subNonAlnum :
    ∀ (n : Nat) (l : List Char), l.length ≤ n →
      stripDashes (subNonAlnum l) = joinChar '-' (alnumRuns l) := by
  intro n
  induction n with
  | zero =>
    intro l hl
    have : l = [] := List.length_eq_zero.mp (Nat.le_zero.mp hl)
    rw [this]
    simp [subNonAlnum, stripDashes, alnumRuns, joinChar]
  | succ n ih =>
    intro l hl
    cases l with
    | nil => simp [subNonAlnum, stripDashes, alnumRuns, joinChar]
    | cons c rest =>
      have hrest : rest.length ≤ n := by
        simpa using Nat.le_of_succ_le_succ (by simpa using hl)
      by_cases hc : isAlnumAscii c = true
      · rw [subNonAlnum, alnumRuns]
        simp only [hc, if_true]
        have hsplit : rest = rest.takeWhile isAlnumAscii ++
            rest.dropWhile isAlnumAscii :=
          (List.takeWhile_append_dropWhile isAlnumAscii rest).symm
        have htw : ∀ x ∈ rest.takeWhile isAlnumAscii, isAlnumAscii x = true :=
          fun x hx => List.mem_takeWhile_imp hx
        have hpre : ∀ x ∈ c :: rest.takeWhile isAlnumAscii, ¬x = '-' := by
          intro x hx
          rcases List.mem_cons.mp hx with hx | hx
          · rw [hx]
            exact alnum_ne_dash c hc
          · exact alnum_ne_dash x (htw x hx)
        rw [show subNonAlnum rest = subNonAlnum (rest.takeWhile isAlnumAscii ++
            rest.dropWhile isAlnumAscii) from by rw [← hsplit]]
        rw [subNonAlnum_alnum_pre _ _ htw]
        rcases hdw : rest.dropWhile isAlnumAscii with _ | ⟨d, dtl⟩
        · have hnil : subNonAlnum [] = [] := by simp [subNonAlnum]
          rw [hnil, List.append_nil]
          rw [stripDashes_dash_free _ hpre]
          simp [alnumRuns, joinChar]
        · have hd : isAlnumAscii d = false := dropWhile_head_not _ rest d dtl hdw
          rw [subNonAlnum]
          simp only [hd]
          simp only [Bool.false_eq_true, if_false]
          rcases hrest2 : dtl.dropWhile (fun x => !isAlnumAscii x) with _ | ⟨e, etl⟩
          · have hruns : alnumRuns dtl = [] := by
              rw [← alnumRuns_dropWhile (fun x => !isAlnumAscii x)
                (fun cc hcc => by simpa using hcc) dtl, hrest2]
              simp [alnumRuns]
            have hnil : subNonAlnum [] = [] := by simp [subNonAlnum]
            rw [hnil, ← List.cons_append]
            rw [stripDashes_append_dash _ (by simp) hpre]
            rw [alnumRuns]
            simp only [hd, Bool.false_eq_true, if_false]
            rw [hruns]
            simp [joinChar]
          · have he : (!isAlnumAscii e) = false :=
              dropWhile_head_not _ dtl e etl hrest2
            have he' : isAlnumAscii e = true := by
              simpa using he
            rw [subNonAlnum]
            simp only [he', if_true]
            have hv := stripDashes_sep (c :: rest.takeWhile isAlnumAscii)
              (by simp) hpre e (subNonAlnum etl) (alnum_ne_dash e he')
            rw [← List.cons_append, hv]
            have hlen2 : (e :: etl).length ≤ n := by
              have l1 : (dtl.dropWhile fun x => !isAlnumAscii x).length ≤
                  dtl.length := dropWhileLenLe _ dtl
              rw [hrest2] at l1
              have l2 : dtl.length ≤ rest.length := by
                have l3 : (rest.dropWhile isAlnumAscii).length ≤ rest.length :=
                  dropWhileLenLe _ rest
                rw [hdw] at l3
                simp at l3
                omega
              omega
            have hih := ih (e :: etl) hlen2
            rw [subNonAlnum] at hih
            simp only [he', if_true] at hih
            have hruns : alnumRuns dtl = alnumRuns (e :: etl) := by
              rw [← alnumRuns_dropWhile (fun x => !isAlnumAscii x)
                (fun cc hcc => by simpa using hcc) dtl, hrest2]
            have hdruns : alnumRuns (d :: dtl) = alnumRuns dtl := by
              rw [alnumRuns]
              simp [hd]
            have h5 : alnumRuns (e :: etl) =
                (e :: etl.takeWhile isAlnumAscii) ::
                  alnumRuns (etl.dropWhile isAlnumAscii) := by
              rw [alnumRuns]
              simp [he']
            rw [hih, hdruns, hruns, h5]
            simp [joinChar]
      · rw [subNonAlnum, alnumRuns]
        simp only [hc]
        simp only [Bool.false_eq_true, if_false]
        rw [stripDashes_cons_dash]
        have hlen : (rest.dropWhile fun x => !isAlnumAscii x).length ≤ n := by
          have := dropWhileLenLe (fun x => !isAlnumAscii x) rest
          omega
        rw [ih _ hlen]
        rw [alnumRuns_dropWhile (fun x => !isAlnumAscii x)
          (fun cc hcc => by simpa using hcc) rest]

/-- A list containing an alphanumeric character has at least one run. -/
theorem alnumRuns_ne_nil (l : List Char) (h : ∃ c ∈ l, isAlnumAscii c = true) :
    alnumRuns l ≠ [] := by
  induction l with
  | nil =>
    obtain ⟨c, hc, _⟩ := h
    exact absurd hc (List.not_mem_nil c)
  | cons c rest ih =>
    by_cases hc : isAlnumAscii c = true
    · rw [alnumRuns]
      simp [hc]
    · rw [alnumRuns]
      simp only [hc, Bool.false_eq_true, if_false]
      apply ih
      obtain ⟨x, hx, hpx⟩ := h
      rcases List.mem_cons.mp hx with hx | hx
      · rw [hx] at hpx
        exact absurd hpx hc
      · exact ⟨x, hx, hpx⟩

/-- Every run produced by alnumRuns is nonempty. -/
theorem alnumRuns_head_ne_nil (n : Nat) :
    ∀ (l : List Char) (r : List Char) (rs : List (List Char)),
      l.length ≤ n → alnumRuns l = r :: rs → r ≠ [] := by
  induction n with
  | zero =>
    intro l r rs hl h
    have : l = [] := List.length_eq_zero.mp (Nat.le_zero.mp hl)
    rw [this] at h
    simp [alnumRuns] at h
  | succ n ih =>
    intro l r rs hl h
    cases l with
    | nil => simp [alnumRuns] at h
    | cons c rest =>
      by_cases hc : isAlnumAscii c = true
      · rw [alnumRuns] at h
        simp only [hc, if_true] at h
        injection h with h1 _
        rw [← h1]
        simp
      · rw [alnumRuns] at h
        simp only [hc, Bool.false_eq_true, if_false] at h
        have hlen : rest.length ≤ n := by
          simpa using Nat.le_of_succ_le_succ (by simpa using hl)
        exact ih rest r rs hlen h

/-- Python whitespace is never alphanumeric. -/
theorem space_not_alnum (c : Char) (h : pyIsSpace c = true) :
    isAlnumAscii c = false := by
  simp only [pyIsSpace, Bool.or_eq_true, decide_eq_true_eq] at h
  rcases h with ((((h | h) | h) | h) | h) | h <;> rw [h] <;> decide

/-- Stripping surrounding whitespace does not change the runs. -/
theorem alnumRuns_pyStrip (l : List Char) :
    alnumRuns (pyStripList l) = alnumRuns l := by
  rw [pyStripList]
  have hm : alnumRuns (l.dropWhile pyIsSpace) = alnumRuns l :=
    alnumRuns_dropWhile pyIsSpace space_not_alnum l
  set m := l.dropWhile pyIsSpace with hmdef
  have hdec : m = (m.reverse.dropWhile pyIsSpace).reverse ++
      (m.reverse.takeWhile pyIsSpace).reverse := by
    have h1 : m.reverse.takeWhile pyIsSpace ++ m.reverse.dropWhile pyIsSpace =
        m.reverse := List.takeWhile_append_dropWhile pyIsSpace m.reverse
    have h2 := congrArg List.reverse h1
    simp only [List.reverse_append, List.reverse_reverse] at h2
    exact h2.symm
  have hws : ∀ c ∈ (m.reverse.takeWhile pyIsSpace).reverse,
      isAlnumAscii c = false := by
    intro c hc
    exact space_not_alnum c
      (List.mem_takeWhile_imp (List.mem_reverse.mp hc))
  have h3 := alnumRuns_append_none _ hws
    ((m.reverse.dropWhile pyIsSpace).reverse).length
    ((m.reverse.dropWhile pyIsSpace).reverse) le_rfl
  rw [← hdec] at h3
  rw [← h3, hm]

/-- Lower-casing distributes over the dash join. -/
theorem map_lower_joinChar (rs : List (List Char)) :
    (joinChar '-' rs).map asciiLowerChar =
      joinChar '-' (rs.map (List.map asciiLowerChar)) := by
  induction rs with
  | nil => simp [joinChar]
  | cons t ts ih =>
    cases ts with
    | nil => simp [joinChar]
    | cons t2 ts2 =>
      have hdash : asciiLowerChar '-' = '-' := by decide
      simp only [joinChar, List.map_append, List.map_cons, hdash]
      rw [ih, List.map_cons]

/-- The slug computed by _slugify_identifier is exactly the lowercased
alphanumeric runs of the label joined by dashes. -/
theorem slugify_eq_slugSpec (s : String) (h : alnumRuns s.data ≠ []) :
    slugify_identifier s = .ok (slugSpec s) := by
  have hM := stripDashes_subNonAlnum (pyStripList s.data).length
    (pyStripList s.data) le_rfl
  have hruns := alnumRuns_pyStrip s.data
  have hval : stripDashes (subNonAlnum (pyStripList s.data)) =
      joinChar '-' (alnumRuns s.data) := by
    rw [hM, hruns]
  rcases hr : alnumRuns s.data with _ | ⟨r, rs⟩
  · exact absurd hr h
  · have hrne : r ≠ [] :=
      alnumRuns_head_ne_nil s.data.length s.data r rs le_rfl hr
    have hjoin_ne : joinChar '-' (r :: rs) ≠ [] := by
      cases rs with
      | nil => simpa [joinChar] using hrne
      | cons r2 rs2 =>
        simp only [joinChar]
        intro hcontra
        rcases List.append_eq_nil.mp hcontra with ⟨h1, _⟩
        exact hrne h1
    rw [slugify_identifier]
    rw [hval, hr]
    have hne_str : String.mk (joinChar '-' (r :: rs)) ≠ "" := by
      intro heq
      have := congrArg String.data heq
      simp at this
      exact hjoin_ne this
    rw [if_neg hne_str]
    rw [slugSpec]
    have : asciiLower (String.mk (joinChar '-' (r :: rs))) =
        String.mk ((joinChar '-' (r :: rs)).map asciiLowerChar) := rfl
    rw [this, map_lower_joinChar, hr]

/-- C4 counterexample: a label with no alphanumeric characters fails ISO
parsing (datetime.fromisoformat raises on it, modelled by the always-none
parse) yet produces no slug at all: the call raises ValueError instead. -/
theorem claim_C4_channel_counterexample :
    group_replay_channel (fun _ => none) (ReplayIdentifier.label "!!!") "TSPI"
      none = .error "Replay identifier must contain alphanumeric characters" := by
  simp +decide [group_replay_channel, pyStrip, pyStripList, slugify_identifier,
    subNonAlnum, stripDashes, pyIsSpace, isAlnumAscii, List.dropWhile]

/-- C4 amended: for every datetime or epoch identifier the channel fields
are the strftime-styled renderings of the resolved UTC datetime, as on the
two concrete instances; for every free-form label that fails ISO parsing
and contains at least one alphanumeric character the suffix is the
lowercased slug of the alphanumeric runs joined by dashes; and equal inputs
give equal outputs. -/
theorem claim_C4_group_replay_amended :
    (∀ (fromIso : String → Option DT) (ident : ReplayIdentifier)
       (stream : String) (dname : Option String) (d : DT),
      ident.resolveDT = some d →
      group_replay_channel fromIso ident stream dname =
        .ok { channel_id := "replay." ++ channelSuffix d,
              subject := "tspi.channel.replay." ++ channelSuffix d,
              display_name := chooseDisplay dname ("replay " ++ isoZ d),
              kind := ChannelKind.group_replay, stream := stream,
              identifier := some (isoZ d) }) ∧
    (group_replay_channel (fun _ => none)
        (ReplayIdentifier.dt ⟨2025, 9, 28, 11, 0, 0⟩) "TSPI" none =
      .ok { channel_id := "replay.20250928T110000Z",
            subject := "tspi.channel.replay.20250928T110000Z",
            display_name := "replay 2025-09-28T11:00:00Z",
            kind := ChannelKind.group_replay, stream := "TSPI",
            identifier := some "2025-09-28T11:00:00Z" }) ∧
    (group_replay_channel (fun _ => none) (ReplayIdentifier.epoch 1759057200)
        "TSPI" none =
      .ok { channel_id := "replay.20250928T110000Z",
            subject := "tspi.channel.replay.20250928T110000Z",
            display_name := "replay 2025-09-28T11:00:00Z",
            kind := ChannelKind.group_replay, stream := "TSPI",
            identifier := some "2025-09-28T11:00:00Z" }) ∧
    (∀ (fromIso : String → Option DT) (label : String) (stream : String)
       (dname : Option String),
      (∃ c ∈ label.data, isAlnumAscii c = true) →
      fromIso (pyStrip label) = none →
      group_replay_channel fromIso (ReplayIdentifier.label label) stream dname =
        .ok { channel_id := "replay." ++ slugSpec label,
              subject := "tspi.channel.replay." ++ slugSpec label,
              display_name := chooseDisplay dname (pyStrip label),
              kind := ChannelKind.group_replay, stream := stream,
              identifier := some (pyStrip label) }) ∧
    (∀ (fromIso : String → Option DT) (a b : ReplayIdentifier)
       (stream : String) (dname : Option String), a = b →
      group_replay_channel fromIso a stream dname =
        group_replay_channel fromIso b stream dname) := by
  refine ⟨?_, by decide, by decide, ?_, ?_⟩
  · intro fromIso ident stream dname d hres
    cases ident with
    | dt d0 =>
      have : d0 = d := by
        simpa [ReplayIdentifier.resolveDT] using hres
      rw [this]
      rfl
    | epoch t =>
      have : epochToDT t = d := by
        simpa [ReplayIdentifier.resolveDT] using hres
      rw [group_replay_channel, this]
    | label s =>
      simp [ReplayIdentifier.resolveDT] at hres
  · intro fromIso label stream dname hex hiso
    have hruns_l : alnumRuns label.data ≠ [] := alnumRuns_ne_nil label.data hex
    have hstripdata : (pyStrip label).data = pyStripList label.data := rfl
    have hruns_t : alnumRuns (pyStrip label).data ≠ [] := by
      rw [hstripdata, alnumRuns_pyStrip]
      exact hruns_l
    have htext_ne : pyStrip label ≠ "" := by
      intro heq
      rw [heq] at hruns_t
      simp [alnumRuns] at hruns_t
    have hslug : slugify_identifier (pyStrip label) =
        .ok (slugSpec (pyStrip label)) :=
      slugify_eq_slugSpec (pyStrip label) hruns_t
    have hspec_eq : slugSpec (pyStrip label) = slugSpec label := by
      rw [slugSpec, slugSpec, hstripdata, alnumRuns_pyStrip]
    rw [group_replay_channel]
    rw [if_neg htext_ne, hiso, hslug, hspec_eq]
    rfl
  · intro fromIso a b stream dname hab
    rw [hab]

/-- Witness for C4 at the datetime instance and a concrete label. -/
theorem claim_C4_group_replay_amended_witness :
    ((ReplayIdentifier.dt ⟨2025, 9, 28, 11, 0, 0⟩).resolveDT =
      some ⟨2025, 9, 28, 11, 0, 0⟩) ∧
    group_replay_channel (fun _ => none)
        (ReplayIdentifier.dt ⟨2025, 9, 28, 11, 0, 0⟩) "TSPI" none =
      .ok { channel_id := "replay." ++ channelSuffix ⟨2025, 9, 28, 11, 0, 0⟩,
            subject := "tspi.channel.replay." ++
              channelSuffix ⟨2025, 9, 28, 11, 0, 0⟩,
            display_name := chooseDisplay none
              ("replay " ++ isoZ ⟨2025, 9, 28, 11, 0, 0⟩),
            kind := ChannelKind.group_replay, stream := "TSPI",
            identifier := some (isoZ ⟨2025, 9, 28, 11, 0, 0⟩) } ∧
    group_replay_channel (fun _ => none)
        (ReplayIdentifier.label "Mission Alpha 7") "TSPI" none =
      .ok { channel_id := "replay." ++ slugSpec "Mission Alpha 7",
            subject := "tspi.channel.replay." ++ slugSpec "Mission Alpha 7",
            display_name := chooseDisplay none (pyStrip "Mission Alpha 7"),
            kind := ChannelKind.group_replay, stream := "TSPI",
            identifier := some (pyStrip "Mission Alpha 7") } :=
  ⟨by decide,
   claim_C4_group_replay_amended.1 (fun _ => none)
     (ReplayIdentifier.dt ⟨2025, 9, 28, 11, 0, 0⟩) "TSPI" none
     ⟨2025, 9, 28, 11, 0, 0⟩ rfl,
   claim_C4_group_replay_amended.2.2.2.1 (fun _ => none) "Mission Alpha 7"
     "TSPI" none ⟨'M', by decide, by decide⟩ rfl⟩

/-! ## C6: replayer pacing -/

/-- The delay of a record with no predecessor is zero. -/
theorem compute_delay_none (r : MessageRecord) :
    compute_delay r none none = 0 := by
  rcases hr : r.recv_epoch_ms with _ | a <;>
    rcases ht : r.time_s with _ | b <;>
      simp [compute_delay, hr, ht]

/-- C6 counterexample: when the recv_epoch_ms delta is negative but the
time_s delta is positive, the code sleeps the time_s delta, while the claim
prescribes the recv delta and hence no sleep at all. -/
theorem claim_C6_pacing_counterexample :
    sleepsOf (replayTrace "room" [c6Rec1, c6Rec2] true) = [4] ∧
    claimSleeps [c6Rec1, c6Rec2] = [] ∧
    sleepsOf (replayTrace "room" [c6Rec1, c6Rec2] true) ≠
      claimSleeps [c6Rec1, c6Rec2] := by
  have h1 : sleepsOf (replayTrace "room" [c6Rec1, c6Rec2] true) = [4] := by
    norm_num [replayTrace, replayGo, compute_delay, sleepsOf, c6Rec1, c6Rec2]
    simp [List.filterMap_cons]
  have h2 : claimSleeps [c6Rec1, c6Rec2] = [] := by
    norm_num [claimSleeps, claimGo, claimDelay, c6Rec1, c6Rec2]
  refine ⟨h1, h2, ?_⟩
  rw [h1, h2]
  simp

/-- The replay loop emits, per record, an optional positive sleep computed
with the threaded last recv and time values, then the publish. -/
theorem replayGo_eq_expected (room : String) (msgs : List MessageRecord) :
    ∀ prev : Option MessageRecord,
      replayGo room true msgs
        (match prev with | none => none | some p => p.recv_epoch_ms)
        (match prev with | none => none | some p => p.time_s) =
      (((prev :: msgs.map some).zip msgs).map (expectedEvents room)).flatten := by
  induction msgs with
  | nil =>
    intro prev
    simp [replayGo]
  | cons r rest ih =>
    intro prev
    have hstep := ih (some r)
    cases prev with
    | none =>
      simp only [replayGo, List.map_cons, List.zip_cons_cons, List.flatten]
      rw [hstep]
      simp [expectedEvents, pairDelay, List.zip]
    | some p =>
      simp only [replayGo, List.map_cons, List.zip_cons_cons, List.flatten]
      rw [hstep]
      simp [expectedEvents, pairDelay, List.zip]

/-- C6 amended: for every window replayed with pace on, the trace is, per
record, an optional sleep of the positive code delay (recv_epoch_ms delta
when both present and positive, else time_s delta when both present and
positive, else none) followed by the publish; every sleep is positive; the
first record is published without any preceding sleep. -/
theorem claim_C6_replay_pacing_amended :
    (∀ (room : String) (msgs : List MessageRecord),
      replayTrace room msgs true =
        ((pairsWithPrev msgs).map (expectedEvents room)).flatten) ∧
    (∀ (room : String) (msgs : List MessageRecord) (d : ℚ),
      d ∈ sleepsOf (replayTrace room msgs true) → 0 < d) ∧
    (∀ (room : String) (r : MessageRecord) (rest : List MessageRecord),
      (replayTrace room (r :: rest) true).head? =
        some (ReplayEvent.publish (subject_for_replay room r) r.cbor
          (rewriteHeaders room r))) := by
  have htrace : ∀ (room : String) (msgs : List MessageRecord),
      replayTrace room msgs true =
        ((pairsWithPrev msgs).map (expectedEvents room)).flatten := by
    intro room msgs
    exact replayGo_eq_expected room msgs none
  refine ⟨htrace, ?_, ?_⟩
  · intro room msgs d hd
    rw [htrace] at hd
    simp only [sleepsOf, List.mem_filterMap] at hd
    obtain ⟨e, he, hmatch⟩ := hd
    rw [List.mem_flatten] at he
    obtain ⟨evs, hevs, hein⟩ := he
    rw [List.mem_map] at hevs
    obtain ⟨pr, _, hpr⟩ := hevs
    rw [← hpr] at hein
    simp only [expectedEvents, List.mem_append] at hein
    rcases hein with hein | hein
    · by_cases hpos : pairDelay pr.1 pr.2 > 0
      · rw [if_pos hpos] at hein
        simp at hein
        rw [hein] at hmatch
        simp at hmatch
        rw [← hmatch]
        exact hpos
      · rw [if_neg hpos] at hein
        exact absurd hein (List.not_mem_nil e)
    · simp at hein
      rw [hein] at hmatch
      simp at hmatch
  · intro room r rest
    have h := htrace room (r :: rest)
    rw [h]
    have hpd : pairDelay none r = 0 := compute_delay_none r
    simp [pairsWithPrev, List.zip, expectedEvents, hpd]

/-- Witness for C6 on a concrete paced window. -/
theorem claim_C6_replay_pacing_amended_witness :
    replayTrace "w" [c6Rec1, c6Rec2] true =
      ((pairsWithPrev [c6Rec1, c6Rec2]).map (expectedEvents "w")).flatten ∧
    ((4 : ℚ) ∈ sleepsOf (replayTrace "w" [c6Rec1, c6Rec2] true) → (0 : ℚ) < 4) ∧
    (replayTrace "w" (c6Rec1 :: [c6Rec2]) true).head? =
      some (ReplayEvent.publish (subject_for_replay "w" c6Rec1) c6Rec1.cbor
        (rewriteHeaders "w" c6Rec1)) :=
  ⟨claim_C6_replay_pacing_amended.1 "w" [c6Rec1, c6Rec2],
   claim_C6_replay_pacing_amended.2.1 "w" [c6Rec1, c6Rec2] 4,
   claim_C6_replay_pacing_amended.2.2 "w" c6Rec1 [c6Rec2]⟩

/-! ## C7: producer error surface -/

/-- C7 counterexample: an unparseable datagram makes ingest raise the
codec ValueError; it does not return nil. -/
theorem claim_C7_producer_counterexample :
    TSPIProducer.ingest {} [] 0 =
      .error "TSPI datagram must be exactly 37 bytes" := by
  decide

/-- C7 amended: ingest returns the payload and publishes exactly once when
the datagram parses and no allow-list excludes its sensor; it returns nil
and publishes nothing when the allow-list excludes the sensor; and it
propagates the codec ValueError when the datagram does not parse. -/
theorem claim_C7_producer_amended :
    (∀ (p : TSPIProducer) (d : List Nat) (t : ℚ) (e : String),
      parse_tspi_datagram d = .error e →
      p.ingest d t = .error e) ∧
    (∀ (p : TSPIProducer) (d : List Nat) (t : ℚ) (r : ParsedTSPI)
       (allowed : List Nat),
      parse_tspi_datagram d = .ok r → p.allowed_sensors = some allowed →
      ¬r.sensor_id ∈ allowed →
      p.ingest d t = .ok (none, [])) ∧
    (∀ (p : TSPIProducer) (d : List Nat) (t : ℚ) (r : ParsedTSPI),
      parse_tspi_datagram d = .ok r →
      (p.allowed_sensors = none ∨
        ∃ allowed, p.allowed_sensors = some allowed ∧ r.sensor_id ∈ allowed) →
      p.ingest d t = .ok (some (TSPIProducer.encode_payload r t),
        [{ subject := build_subject r (some p.stream_pfx),
           headers := message_headers r,
           body := TSPIProducer.encode_payload r t, timestamp := t }])) := by
  refine ⟨?_, ?_, ?_⟩
  · intro p d t e h
    rw [TSPIProducer.ingest, TSPIProducer.prepare_message, h]
  · intro p d t r allowed hp hall hmem
    rw [TSPIProducer.ingest, TSPIProducer.prepare_message, hp, hall]
    simp [hmem]
  · intro p d t r hp hok
    rcases hok with hnone | ⟨allowed, hall, hmem⟩
    · rw [TSPIProducer.ingest, TSPIProducer.prepare_message, hp, hnone]
    · rw [TSPIProducer.ingest, TSPIProducer.prepare_message, hp, hall]
      simp [hmem]

/-- Witness for C7: the codec error propagates, and an allow-list of
sensor 1 silently drops the sensor-501 datagram. -/
theorem claim_C7_producer_amended_witness :
    parse_tspi_datagram [] = .error "TSPI datagram must be exactly 37 bytes" ∧
    TSPIProducer.ingest { allowed_sensors := some [1] } []
      0 = .error "TSPI datagram must be exactly 37 bytes" ∧
    parse_tspi_datagram (s1Header ++ List.replicate 24 0) = .ok c7Parsed ∧
    TSPIProducer.ingest { allowed_sensors := some [1] }
      (s1Header ++ List.replicate 24 0) 0 = .ok (none, []) :=
  ⟨by decide,
   claim_C7_producer_amended.1 { allowed_sensors := some [1] } [] 0
     "TSPI datagram must be exactly 37 bytes" (by decide),
   rfl,
   claim_C7_producer_amended.2.1 { allowed_sensors := some [1] }
     (s1Header ++ List.replicate 24 0) 0 c7Parsed [1] rfl rfl (by decide)⟩

/-! ## C8: archiver command projection -/

/-- C8: evaluation of the archiver at the failing input.  Commands are
published on tspi.cmd.display.<name>, which the telemetry consumer drains,
but the commands consumer filter cmd.display.units does not match it, the
classifier calls it telemetry, and the drain loop never invokes
upsert_command for it, contradicting the claim, the archiver test, and the
spec. -/
theorem claim_C8_archiver_commands_eval :
    commandSubject "units" = "tspi.cmd.display.units" ∧
    archiverDrains (commandSubject "units") = true ∧
    matchSubject (commandSubject "units") "cmd.display.units" = false ∧
    drainCallsUpsertCommand (commandSubject "units") = false ∧
    classify_kind (commandSubject "units") "telemetry" = "telemetry" := by
  decide

/-! ## C9: livestream immortality and enumeration order -/

/-- C9 counterexample: a raw upsert keyed livestream replaces the
livestream descriptor, so the directory no longer contains it. -/
theorem claim_C9_livestream_counterexample :
    dictFind (runChannelOps (fun _ => none)
      [ChannelOp.upsert rogueChannel true]).directory "livestream" =
        some rogueChannel ∧
    rogueChannel ≠ live_channel ∧
    ¬live_channel ∈ ((runChannelOps (fun _ => none)
      [ChannelOp.upsert rogueChannel true]).directory.map Prod.snd) := by
  refine ⟨by decide, by decide, by decide⟩

/-- The directory invariant pins the livestream lookup. -/
theorem dirInv_find (d : ChannelDirectory) (h : DirInv d) :
    dictFind d "livestream" = some live_channel := by
  obtain ⟨⟨p0, hp0, hk0⟩, hall, _⟩ := h
  rcases hf : d.find? fun p => p.1 = "livestream" with _ | p
  · rw [List.find?_eq_none] at hf
    exact absurd (by simpa using hk0) (hf p0 hp0)
  · have hpred := List.find?_some hf
    have hmem := List.mem_of_find?_eq_some hf
    have hkey : p.1 = "livestream" := by simpa using hpred
    have hval := hall p hmem hkey
    simp [dictFind, hf, hval]

/-- upsert preserves the directory invariant for well-formed
descriptors. -/
theorem dirInv_upsert (d : ChannelDirectory) (c : ChannelDescriptor)
    (adv : Bool) (h : DirInv d)
    (hk : c.kind = ChannelKind.group_replay ∨
      c.kind = ChannelKind.private_replay)
    (hid : c.channel_id ≠ "livestream") : DirInv (d.upsert c adv) := by
  obtain ⟨hex, hall, hrep⟩ := h
  rw [ChannelDirectory.upsert]
  split
  · exact ⟨hex, hall, hrep⟩
  · rw [dictUpd]
    split
    · refine ⟨?_, ?_, ?_⟩
      · obtain ⟨p0, hp0, hk0⟩ := hex
        refine ⟨p0, ?_, hk0⟩
        rw [List.mem_map]
        refine ⟨p0, hp0, ?_⟩
        have : ¬p0.1 = c.channel_id := by
          rw [hk0]
          exact fun hcc => hid hcc.symm
        simp [this]
      · intro p hp hkey
        rw [List.mem_map] at hp
        obtain ⟨q, hq, hconv⟩ := hp
        by_cases hqc : q.1 = c.channel_id
        · rw [← hconv] at hkey
          simp [hqc] at hkey
          exact absurd hkey hid
        · rw [← hconv] at hkey ⊢
          simp only [hqc, if_false] at hkey ⊢
          exact hall q hq hkey
      · intro p hp hkey
        rw [List.mem_map] at hp
        obtain ⟨q, hq, hconv⟩ := hp
        by_cases hqc : q.1 = c.channel_id
        · rw [← hconv]
          simp only [hqc, if_true]
          exact hk
        · rw [← hconv] at hkey ⊢
          simp only [hqc, if_false] at hkey ⊢
          exact hrep q hq hkey
    · refine ⟨?_, ?_, ?_⟩
      · obtain ⟨p0, hp0, hk0⟩ := hex
        exact ⟨p0, List.mem_append_left _ hp0, hk0⟩
      · intro p hp hkey
        rcases List.mem_append.mp hp with hp | hp
        · exact hall p hp hkey
        · simp at hp
          rw [hp] at hkey
          exact absurd hkey hid
      · intro p hp hkey
        rcases List.mem_append.mp hp with hp | hp
        · exact hrep p hp hkey
        · simp at hp
          rw [hp]
          exact hk

/-- remove preserves the directory invariant. -/
theorem dirInv_remove (d : ChannelDirectory) (cid : String) (h : DirInv d) :
    DirInv (d.remove cid) := by
  obtain ⟨hex, hall, hrep⟩ := h
  rw [ChannelDirectory.remove]
  split
  · exact ⟨hex, hall, hrep⟩
  · rename_i hcid
    refine ⟨?_, ?_, ?_⟩
    · obtain ⟨p0, hp0, hk0⟩ := hex
      refine ⟨p0, ?_, hk0⟩
      rw [List.mem_filter]
      refine ⟨hp0, ?_⟩
      rw [hk0]
      simpa using fun hcc => hcid hcc.symm
    · intro p hp hkey
      exact hall p (List.mem_filter.mp hp).1 hkey
    · intro p hp hkey
      exact hrep p (List.mem_filter.mp hp).1 hkey

/-- No replay channel id collides with the livestream key. -/
theorem replay_id_ne_livestream (s : String) : "replay." ++ s ≠ "livestream" := by
  intro h
  have hd := congrArg String.data h
  rw [String.data_append] at hd
  simp [String.data] at hd

/-- Every descriptor group_replay_channel returns is a group replay whose
id lives under the replay prefix. -/
theorem group_replay_ok_shape (fromIso : String → Option DT)
    (ident : ReplayIdentifier) (stream : String) (dn : Option String)
    (c : ChannelDescriptor)
    (h : group_replay_channel fromIso ident stream dn = .ok c) :
    c.kind = ChannelKind.group_replay ∧
    ∃ sfx, c.channel_id = "replay." ++ sfx := by
  cases ident with
  | dt d =>
    rw [group_replay_channel] at h
    injection h with h
    rw [← h]
    exact ⟨rfl, channelSuffix d, rfl⟩
  | epoch t =>
    rw [group_replay_channel] at h
    injection h with h
    rw [← h]
    exact ⟨rfl, channelSuffix (epochToDT t), rfl⟩
  | label s =>
    rw [group_replay_channel] at h
    split at h
    · exact absurd h (by simp)
    · split at h
      · injection h with h
        rw [← h]
        rename_i d hd
        exact ⟨rfl, channelSuffix d, rfl⟩
      · rcases hs : slugify_identifier (pyStrip s) with e | slug <;> rw [hs] at h
        · exact absurd h (by simp [Except.map])
        · simp only [Except.map] at h
          injection h with h
          rw [← h]
          exact ⟨rfl, slug, rfl⟩

/-- Every channel operation preserves the directory invariant. -/
theorem dirInv_step (fromIso : String → Option DT) (m : ChannelManager)
    (op : ChannelOp) (h : DirInv m.directory) (hwf : op.wellFormed = true) :
    DirInv (applyChannelOp fromIso m op).directory := by
  cases op with
  | upsert c adv =>
    simp only [ChannelOp.wellFormed, Bool.and_eq_true, Bool.or_eq_true,
      decide_eq_true_eq] at hwf
    refine dirInv_upsert m.directory c adv h ?_ ?_
    · rcases hwf.1 with hk | hk
      · exact Or.inl hk
      · exact Or.inr hk
    · simpa using hwf.2
  | remove cid => exact dirInv_remove m.directory cid h
  | start ident stream dn =>
    simp only [applyChannelOp, ChannelManager.start_group_replay]
    rcases hgr : group_replay_channel fromIso ident stream dn with e | c
    · exact h
    · obtain ⟨hk, sfx, hid⟩ := group_replay_ok_shape fromIso ident stream dn c hgr
      refine dirInv_upsert m.directory c true h (Or.inl hk) ?_
      rw [hid]
      exact replay_id_ne_livestream sfx
  | stop cid =>
    obtain ⟨d, ag⟩ := m
    simp only [applyChannelOp, ChannelManager.stop_group_replay] at h ⊢
    split
    · exact h
    · split
      · exact h
      · split
        · exact h
        · split
          · exact h
          · exact dirInv_remove d _ h

/-- The invariant holds after any well-formed operation sequence. -/
theorem dirInv_run (fromIso : String → Option DT) (ops : List ChannelOp)
    (hwf : ∀ op ∈ ops, op.wellFormed = true) :
    DirInv (runChannelOps fromIso ops).directory := by
  have hinit : DirInv ChannelManager.init.directory := by
    refine ⟨⟨("livestream", live_channel), by simp [ChannelManager.init,
      ChannelDirectory.init], rfl⟩, ?_, ?_⟩
    · intro p hp _
      simp [ChannelManager.init, ChannelDirectory.init] at hp
      rw [hp]
    · intro p hp hkey
      simp [ChannelManager.init, ChannelDirectory.init] at hp
      rw [hp] at hkey
      simp at hkey
  rw [runChannelOps]
  revert hinit
  generalize ChannelManager.init = m
  induction ops generalizing m with
  | nil =>
    intro hm
    simpa using hm
  | cons op rest ih =>
    intro hm
    have hstep := dirInv_step fromIso m op hm (hwf op (List.mem_cons_self op rest))
    have := ih (fun o ho => hwf o (List.mem_cons_of_mem op ho))
      (applyChannelOp fromIso m op) hstep
    simpa using this

/-- The non-strict key order is transitive. -/
theorem channelLeP_trans (a b c : ChannelDescriptor) (hab : channelLeP a b)
    (hbc : channelLeP b c) : channelLeP a c := by
  rcases hab with hab | ⟨hab1, hab2⟩
  · rcases hbc with hbc | ⟨hbc1, hbc2⟩
    · exact Or.inl (Nat.lt_trans hab hbc)
    · exact Or.inl (hbc1 ▸ hab)
  · rcases hbc with hbc | ⟨hbc1, hbc2⟩
    · exact Or.inl (hab1 ▸ hbc)
    · exact Or.inr ⟨hab1.trans hbc1, le_trans hab2 hbc2⟩

/-- A strict comparison implies the non-strict order. -/
theorem channelBefore_true_le (a b : ChannelDescriptor)
    (h : channelBefore a b = true) : channelLeP a b := by
  simp only [channelBefore, Bool.or_eq_true, decide_eq_true_eq] at h
  rcases h with h | h
  · exact Or.inl h
  · exact Or.inr ⟨h.1, le_of_lt h.2⟩

/-- A failed strict comparison implies the reverse non-strict order. -/
theorem channelBefore_false_ge (a b : ChannelDescriptor)
    (h : channelBefore a b = false) : channelLeP b a := by
  simp only [channelBefore, Bool.or_eq_false_iff, decide_eq_false_iff_not] at h
  obtain ⟨h1, h2⟩ := h
  rcases Nat.lt_trichotomy (sortOrderOf b.kind) (sortOrderOf a.kind) with
    hlt | heq | hgt
  · exact Or.inl hlt
  · refine Or.inr ⟨heq, ?_⟩
    have : ¬a.channel_id < b.channel_id := fun hx => h2 ⟨heq.symm, hx⟩
    exact le_of_not_lt this
  · exact absurd hgt h1

/-- Membership through ordered insertion. -/
theorem mem_insOrdered {α : Type} (lt : α → α → Bool) (x a : α)
    (xs : List α) : a ∈ insOrdered lt x xs ↔ a = x ∨ a ∈ xs := by
  induction xs with
  | nil => simp [insOrdered]
  | cons y ys ih =>
    rw [insOrdered]
    split
    · simp
    · simp only [List.mem_cons, ih]
      tauto

/-- Ordered insertion keeps the list pairwise ordered. -/
theorem pairwise_insOrdered (x : ChannelDescriptor)
    (xs : List ChannelDescriptor) (h : List.Pairwise channelLeP xs) :
    List.Pairwise channelLeP (insOrdered channelBefore x xs) := by
  induction xs with
  | nil => simp [insOrdered]
  | cons y ys ih =>
    rw [insOrdered]
    rw [List.pairwise_cons] at h
    obtain ⟨hy, hys⟩ := h
    split
    · rename_i hlt
      have hxy := channelBefore_true_le x y hlt
      refine List.Pairwise.cons ?_ (List.Pairwise.cons hy hys)
      intro z hz
      rcases List.mem_cons.mp hz with hz | hz
      · rw [hz]
        exact hxy
      · exact channelLeP_trans x y z hxy (hy z hz)
    · rename_i hge
      have hge' : channelBefore x y = false := by
        simpa using hge
      have hyx := channelBefore_false_ge x y hge'
      refine List.Pairwise.cons ?_ (ih hys)
      intro z hz
      rcases (mem_insOrdered channelBefore x z ys).mp hz with hz | hz
      · rw [hz]
        exact hyx
      · exact hy z hz

/-- Ordered insertion is a permutation of consing. -/
theorem perm_insOrdered {α : Type} (lt : α → α → Bool) (x : α)
    (xs : List α) : List.Perm (insOrdered lt x xs) (x :: xs) := by
  induction xs with
  | nil => simp [insOrdered]
  | cons y ys ih =>
    rw [insOrdered]
    split
    · exact List.Perm.refl _
    · calc
        List.Perm (y :: insOrdered lt x ys) (y :: x :: ys) :=
          List.Perm.cons y ih
        List.Perm _ (x :: y :: ys) := List.Perm.swap x y ys

/-- The stable sort of list_channels is pairwise ordered. -/
theorem pairwise_pySort (xs : List ChannelDescriptor) :
    List.Pairwise channelLeP (pySort channelBefore xs) := by
  have hgen : ∀ (l : List ChannelDescriptor) (acc : List ChannelDescriptor),
      List.Pairwise channelLeP acc →
      List.Pairwise channelLeP
        (l.foldl (fun a x => insOrdered channelBefore x a) acc) := by
    intro l
    induction l with
    | nil => intro acc hacc; simpa using hacc
    | cons x l' ih =>
      intro acc hacc
      exact ih (insOrdered channelBefore x acc) (pairwise_insOrdered x acc hacc)
  exact hgen xs [] (List.Pairwise.nil)

/-- The stable sort permutes its input. -/
theorem perm_pySort {α : Type} (lt : α → α → Bool) (xs : List α) :
    List.Perm (pySort lt xs) xs := by
  have hgen : ∀ (l acc : List α),
      List.Perm (l.foldl (fun a x => insOrdered lt x a) acc) (acc ++ l) := by
    intro l
    induction l with
    | nil => intro acc; simp
    | cons x l' ih =>
      intro acc
      calc
        List.Perm (l'.foldl (fun a x => insOrdered lt x a) (insOrdered lt x acc))
            (insOrdered lt x acc ++ l') := ih (insOrdered lt x acc)
        List.Perm _ ((x :: acc) ++ l') :=
          (perm_insOrdered lt x acc).append_right l'
        List.Perm _ (acc ++ x :: l') := by
          simpa using List.perm_middle.symm
  simpa using hgen xs []

/-- C9 amended: along every sequence of upserts, removes, starts and stops
in which raw upserts carry replay-kind descriptors not keyed livestream,
the livestream descriptor stays reachable under its key, removing the
livestream key is a no-op on any directory, and every enumeration lists
the livestream first followed by the replay channels in the
(kind, channel id) sort order, with private replays excluded when their
inclusion is not requested. -/
theorem claim_C9_livestream_amended :
    (∀ (fromIso : String → Option DT) (ops : List ChannelOp),
      (∀ op ∈ ops, op.wellFormed = true) →
      dictFind (runChannelOps fromIso ops).directory "livestream" =
        some live_channel) ∧
    (∀ d : ChannelDirectory, d.remove "livestream" = d) ∧
    (∀ (fromIso : String → Option DT) (ops : List ChannelOp) (ip : Bool),
      (∀ op ∈ ops, op.wellFormed = true) →
      ∃ l, ChannelDirectory.list_channels
          (runChannelOps fromIso ops).directory ip = some (live_channel :: l) ∧
        List.Pairwise channelLeP l ∧
        (∀ c ∈ l, c.kind = ChannelKind.group_replay ∨
          c.kind = ChannelKind.private_replay) ∧
        (ip = false → ∀ c ∈ l, c.kind ≠ ChannelKind.private_replay)) := by
  refine ⟨?_, ?_, ?_⟩
  · intro fromIso ops hwf
    exact dirInv_find _ (dirInv_run fromIso ops hwf)
  · intro d
    simp [ChannelDirectory.remove]
  · intro fromIso ops ip hwf
    have hinv := dirInv_run fromIso ops hwf
    have hfind := dirInv_find _ hinv
    rw [ChannelDirectory.list_channels, hfind]
    refine ⟨_, rfl, ?_, ?_, ?_⟩
    · exact List.Pairwise.filter _ (pairwise_pySort _)
    · intro c hc
      have hc2 := List.mem_of_mem_filter hc
      have hc3 : c ∈ ((runChannelOps fromIso ops).directory.filter
          fun p => p.1 ≠ "livestream").map Prod.snd :=
        (perm_pySort channelBefore _).mem_iff.mp hc2
      rw [List.mem_map] at hc3
      obtain ⟨p, hp, hpc⟩ := hc3
      rw [List.mem_filter] at hp
      have hkey : p.1 ≠ "livestream" := by
        simpa using hp.2
      rw [← hpc]
      exact hinv.2.2 p hp.1 hkey
    · intro hip c hc
      have := List.of_mem_filter hc
      rw [hip] at this
      simp at this
      exact this

/-- Witness for C9 on a concrete well-formed operation sequence. -/
theorem claim_C9_livestream_amended_witness :
    (∀ op ∈ c9Ops, op.wellFormed = true) ∧
    dictFind (runChannelOps (fun _ => none) c9Ops).directory "livestream" =
      some live_channel ∧
    ChannelDirectory.remove ChannelDirectory.init "livestream" =
      ChannelDirectory.init ∧
    ∃ l, ChannelDirectory.list_channels
        (runChannelOps (fun _ => none) c9Ops).directory true =
          some (live_channel :: l) ∧
      List.Pairwise channelLeP l ∧
      (∀ c ∈ l, c.kind = ChannelKind.group_replay ∨
        c.kind = ChannelKind.private_replay) ∧
      (true = false → ∀ c ∈ l, c.kind ≠ ChannelKind.private_replay) :=
  ⟨by decide,
   claim_C9_livestream_amended.1 (fun _ => none) c9Ops (by decide),
   claim_C9_livestream_amended.2.1 ChannelDirectory.init,
   claim_C9_livestream_amended.2.2 (fun _ => none) c9Ops true (by decide)⟩

/-! ## C1: forward-jump determinism of the player state engine -/

/-- Stepping n times from a position inside the timeline advances the
position by n and folds the shared dispatch over the traversed slice. -/
theorem playSteps_spec (tl : List PMsg) :
    ∀ (n : Nat) (s : PlayerState), s.position + n ≤ tl.length →
      (playSteps tl n s).position = s.position + n ∧
      (playSteps tl n s).side =
        ((tl.drop s.position).take n).foldl (fun a m => sideStep m a) s.side := by
  intro n
  induction n with
  | zero =>
    intro s _
    simp [playSteps]
  | succ k ih =>
    intro s hlen
    have hpos : s.position < tl.length := by omega
    have hstep : stepOnce tl s =
        { position := s.position + 1,
          sideband_cursor := max s.sideband_cursor (s.position + 1),
          side := sideStep (tl.get ⟨s.position, hpos⟩) s.side } := by
      rw [stepOnce, dif_pos hpos]
    simp only [playSteps]
    rw [hstep]
    obtain ⟨hp, hs⟩ := ih
      { position := s.position + 1,
        sideband_cursor := max s.sideband_cursor (s.position + 1),
        side := sideStep (tl.get ⟨s.position, hpos⟩) s.side }
      (by dsimp only; omega)
    constructor
    · rw [hp]
      dsimp only
      omega
    · rw [hs]
      dsimp only
      have hdrop : tl.drop s.position =
          tl.get ⟨s.position, hpos⟩ :: tl.drop (s.position + 1) := by
        rw [List.drop_eq_getElem_cons hpos]
        simp
      rw [hdrop, List.take_succ_cons, List.foldl_cons]

/-- C1: playing the timeline up to position j leaves the same latest
display units, marker colour and tag table as playing up to i and then
scrubbing forward to j (the intervening commands and tags are replayed);
and a backward scrub keeps that state intact and only moves the cursor. -/
theorem claim_C1_forward_jump_determinism :
    (∀ (tl : List PMsg) (u0 m0 : String) (i j : Nat), i < j → j < tl.length →
      (playSteps tl j (initPlayer u0 m0)).side =
        (scrub_to_index tl (playSteps tl i (initPlayer u0 m0)) j).side) ∧
    (∀ (tl : List PMsg) (s : PlayerState) (idx : Nat),
      min idx (tl.length - 1) < s.position →
      (scrub_to_index tl s idx).side = s.side ∧
      (tl ≠ [] → (scrub_to_index tl s idx).position =
        min idx (tl.length - 1))) := by
  constructor
  · intro tl u0 m0 i j hij hjlen
    have hi := playSteps_spec tl i (initPlayer u0 m0) (by simp [initPlayer]; omega)
    have hj := playSteps_spec tl j (initPlayer u0 m0) (by simp [initPlayer]; omega)
    obtain ⟨hpi, hsi⟩ := hi
    obtain ⟨hpj, hsj⟩ := hj
    have hne : tl.isEmpty = false := by
      cases tl with
      | nil => simp at hjlen
      | cons a t => rfl
    rw [scrub_to_index, hne]
    simp only [Bool.false_eq_true, if_false]
    have hmin : min j (tl.length - 1) = j := by omega
    rw [hmin]
    rw [handleJump, if_pos (by rw [hpi]; simpa [initPlayer] using hij)]
    simp only
    rw [replaySideband, if_neg (by rw [hpi]; simp [initPlayer]; omega)]
    simp only [hpi]
    rw [hsj, hsi]
    simp only [initPlayer, List.drop_zero]
    have hsplit : tl.take j = tl.take i ++ (tl.drop i).take (j - i) := by
      have hj' : j = i + (j - i) := by omega
      calc tl.take j = tl.take (i + (j - i)) := by rw [← hj']
        _ = tl.take i ++ (tl.drop i).take (j - i) := List.take_add tl i (j - i)
    rw [hsplit, List.foldl_append]
    simp
  · intro tl s idx hlt
    cases htl : tl.isEmpty with
    | true =>
      have htl' : tl = [] := by
        cases tl with
        | nil => rfl
        | cons a t => simp [List.isEmpty] at htl
      subst htl'
      rw [scrub_to_index]
      simp
    | false =>
      rw [scrub_to_index, htl]
      simp only [Bool.false_eq_true, if_false]
      rw [handleJump, if_neg (Nat.lt_asymm hlt), if_pos hlt]
      exact ⟨rfl, fun _ => rfl⟩

/-- Witness for C1 on the S5 scenario: playing to 3 equals playing to 1
then scrubbing to 3, and a backward scrub from position 3 to 0 keeps the
side state. -/
theorem claim_C1_forward_jump_determinism_witness :
    ((playSteps c1Timeline 3 (initPlayer "metric" "red")).side =
      (scrub_to_index c1Timeline
        (playSteps c1Timeline 1 (initPlayer "metric" "red")) 3).side) ∧
    ((scrub_to_index c1Timeline
        { position := 3, sideband_cursor := 3, side := c1Side } 0).side =
      c1Side) :=
  ⟨claim_C1_forward_jump_determinism.1 c1Timeline "metric" "red" 1 3
     (by decide) (by decide),
   (claim_C1_forward_jump_determinism.2 c1Timeline
     { position := 3, sideband_cursor := 3, side := c1Side } 0 (by decide)).1⟩

end TspiKit
